import Mathlib

/-!
# costume_2012.c : fixed-point filters, velocity integrator and event loop

A shallow embedding of `Components/uC_FW/proj/costume_2012.c` (and of its copy
`Components/uC_FW/costume_2012/costume_2012/costume_2012.c`, whose filter functions are
identical and whose main loop differs only in where the UART bytes are sent).

Machine integers are mathematical integers with an explicit wrap at every place where the C
code stores into, or converts to, a fixed-width type.  Signed conversions wrap in two's
complement and `>>` on a signed value is an arithmetic shift, as avr-gcc implements them.
-/

namespace Costume

/-! ## Machine integers -/

/-- Conversion to `uint8_t`. -/
def toU8 (z : Int) : Int := z % 2 ^ 8

/-- Conversion to `uint32_t`. -/
def toU32 (z : Int) : Int := z % 2 ^ 32

/-- Conversion to `int16_t` (two's complement wrap). -/
def toI16 (z : Int) : Int := (z + 2 ^ 15) % 2 ^ 16 - 2 ^ 15

/-- Conversion to `int32_t` (two's complement wrap). -/
def toI32 (z : Int) : Int := (z + 2 ^ 31) % 2 ^ 32 - 2 ^ 31

/-- Conversion to `int64_t` (two's complement wrap). -/
def toI64 (z : Int) : Int := (z + 2 ^ 63) % 2 ^ 64 - 2 ^ 63

/-- The C operator `z >> n` on a signed value: arithmetic shift, rounding towards minus
infinity. -/
def asr (z : Int) (n : Nat) : Int := z >>> n

/-- Values of type `uint8_t`. -/
def isU8 (z : Int) : Prop := 0 ≤ z ∧ z < 2 ^ 8

/-- Values of type `int16_t`. -/
def isI16 (z : Int) : Prop := -2 ^ 15 ≤ z ∧ z < 2 ^ 15

/-- Values of type `int32_t`. -/
def isI32 (z : Int) : Prop := -2 ^ 31 ≤ z ∧ z < 2 ^ 31

/-- Values of type `int64_t`. -/
def isI64 (z : Int) : Prop := -2 ^ 63 ≤ z ∧ z < 2 ^ 63

instance (z : Int) : Decidable (isU8 z) := by unfold isU8; infer_instance

instance (z : Int) : Decidable (isI16 z) := by unfold isI16; infer_instance

instance (z : Int) : Decidable (isI32 z) := by unfold isI32; infer_instance

instance (z : Int) : Decidable (isI64 z) := by unfold isI64; infer_instance

/-! ## Low-pass filter (`adc_lp_filter`) -/

/-- Fixed-point coefficient `#define LPF_B0 0x000009AC`. -/
def LPF_B0 : Int := 0x000009AC

/-- Fixed-point coefficient `#define LPF_B1 0x000009AC`. -/
def LPF_B1 : Int := 0x000009AC

/-- Fixed-point coefficient `#define LPF_A1 0x0000ECA7`. -/
def LPF_A1 : Int := 0x0000ECA7

/-- Rest reading `#define NOMINAL_Y_ACCEL 0x00580000`. -/
def NOMINAL_Y_ACCEL : Int := 0x00580000

/-- The two `static` variables of `adc_lp_filter`: `uint8_t last_sample` and
`int32_t last_result`. -/
structure LpState where
  last_sample : Int
  last_result : Int
deriving DecidableEq, Repr

/-- Initialisers of the statics of `adc_lp_filter`. -/
def lp_init : LpState :=
  { last_sample := toU8 (asr NOMINAL_Y_ACCEL 16), last_result := NOMINAL_Y_ACCEL }

/-- Well-typed low-pass state. -/
def LpState.wf (st : LpState) : Prop := isU8 st.last_sample ∧ isI32 st.last_result

/-- One call of `adc_lp_filter(adc_sample)`: returns the result and the new statics.
`temp` and `temp2` are `uint32_t`, `temp3` is `int64_t`, the sum is formed in `uint32_t`
and stored into the `int32_t` result. -/
def adc_lp_filter (st : LpState) (adc_sample : Int) : Int × LpState :=
  let temp : Int := toU32 (toI32 (toI32 adc_sample * LPF_B0))
  let temp2 : Int := toU32 (toI32 (toI32 st.last_sample * LPF_B1))
  let temp3 : Int := asr (toI64 (toI64 st.last_result * LPF_A1)) 16
  let result : Int := toI32 (toU32 (toU32 (temp + temp2) + toU32 (toI32 temp3)))
  (result, { last_sample := adc_sample, last_result := result })

/-- The low-pass expression of the specification over unbounded integers:
`b0*sample + b1*last_sample + (a1*last_result rescaled by 16 bits)`. -/
def lp_ideal (s r x : Int) : Int := LPF_B0 * x + LPF_B1 * s + (r * LPF_A1) / 2 ^ 16

/-! ## High-pass filter (`adc_hp_filter`) -/

/-- Fixed-point coefficient `#define HPF_B0 0x000322A9`. -/
def HPF_B0 : Int := 0x000322A9

/-- Fixed-point coefficient `#define HPF_B1 0x000322A9`. -/
def HPF_B1 : Int := 0x000322A9

/-- Fixed-point coefficient `#define HPF_A1 0x0000FEFF`. -/
def HPF_A1 : Int := 0x0000FEFF

/-- The two `static` variables of `adc_hp_filter`, both `int32_t`. -/
structure HpState where
  last_sample : Int
  last_result : Int
deriving DecidableEq, Repr

/-- Initialisers of the statics of `adc_hp_filter`. -/
def hp_init : HpState := { last_sample := NOMINAL_Y_ACCEL, last_result := 0x00000000 }

/-- Well-typed high-pass state. -/
def HpState.wf (st : HpState) : Prop := isI32 st.last_sample ∧ isI32 st.last_result

/-- One call of `adc_hp_filter(adc_sample)`: each product is formed in `int64_t`, shifted,
and cast to `int32_t`; the three terms are combined in `int32_t`. -/
def adc_hp_filter (st : HpState) (adc_sample : Int) : Int × HpState :=
  let temp : Int := toI32 (asr (toI64 (toI64 st.last_result * HPF_A1)) 16)
  let temp2 : Int := toI32 (asr (toI64 (toI64 st.last_sample * HPF_B1)) 16)
  let temp3 : Int := toI32 (asr (toI64 (toI64 adc_sample * HPF_B0)) 16)
  let result : Int := toI32 (toI32 (temp - temp2) + temp3)
  (result, { last_sample := adc_sample, last_result := result })

/-! ## Velocity integrator (`compute_velocity`) -/

/-- The two `static` variables of `compute_velocity`, both `int32_t`. -/
structure VelState where
  current_velocity : Int
  last_accel : Int
deriving DecidableEq, Repr

/-- Initialisers of the statics of `compute_velocity`. -/
def vel_init : VelState := { current_velocity := 0x00000000, last_accel := 0x00000000 }

/-- Well-typed integrator state. -/
def VelState.wf (st : VelState) : Prop := isI32 st.current_velocity ∧ isI32 st.last_accel

/-- One call of `compute_velocity(filtered_y_accel)`; the return type is `int16_t`. -/
def compute_velocity (st : VelState) (filtered_y_accel : Int) : Int × VelState :=
  let current_velocity : Int :=
    toI32 (st.current_velocity + asr (toI32 (st.last_accel + filtered_y_accel)) 1)
  (toI16 (asr current_velocity 16),
    { current_velocity := current_velocity, last_accel := filtered_y_accel })

/-! ## Holding a constant sample -/

/-- State of `adc_lp_filter` after `n` calls that all pass the sample `x`. -/
def lp_hold (x : Int) : Nat → LpState → LpState
  | 0, st => st
  | n + 1, st => lp_hold x n (adc_lp_filter st x).2

/-- Value returned by call number `n + 1` when every call passes the sample `x`. -/
def lp_hold_out (x : Int) (n : Nat) (st : LpState) : Int :=
  (adc_lp_filter (lp_hold x n st) x).1

/-- The filter cascade of the main loop:
`filtered_y_axis = adc_lp_filter(adc_y_axis); filtered_y_axis = adc_hp_filter(filtered_y_axis);`
It returns the filtered signal and both filter states. -/
def cascade (st : LpState × HpState) (adc_y_axis : Int) : Int × (LpState × HpState) :=
  let lp := adc_lp_filter st.1 adc_y_axis
  let hp := adc_hp_filter st.2 lp.1
  (hp.1, (lp.2, hp.2))

/-- Filter states after `n` cascade steps on the constant sample `x`, from the initial
statics. -/
def cascade_hold (x : Int) : Nat → LpState × HpState
  | 0 => (lp_init, hp_init)
  | n + 1 => (cascade (cascade_hold x n) x).2

/-- Output of cascade step number `n + 1` on the constant sample `x`. -/
def cascade_hold_out (x : Int) (n : Nat) : Int := (cascade (cascade_hold x n) x).1

/-- Invariant of the cascade on a held sample `x` below the initial reading, after the first
step: the low-pass output keeps falling and the high-pass output stays negative. -/
def FallInv (x : Int) (p : LpState × HpState) : Prop :=
  p.1.last_sample = x ∧ 0 ≤ p.1.last_result ∧ p.1.last_result ≤ 5767168 ∧
  4952 * x + p.1.last_result * 60583 / 65536 ≤ p.1.last_result ∧
  p.2.last_sample = p.1.last_result ∧
  -1000000000 ≤ p.2.last_result ∧ p.2.last_result < 0

/-- Invariant of the cascade on a held sample `x` above the initial reading, after the first
step: the low-pass output keeps rising and the high-pass output stays non-negative. -/
def RiseInv (x : Int) (p : LpState × HpState) : Prop :=
  p.1.last_sample = x ∧ 5767168 ≤ p.1.last_result ∧ p.1.last_result ≤ 16777216 ∧
  p.1.last_result ≤ 4952 * x + p.1.last_result * 60583 / 65536 ∧
  p.2.last_sample = p.1.last_result ∧
  0 ≤ p.2.last_result ∧ p.2.last_result ≤ 1000000000

/-! ## Booleans, bit macros and events -/

/-- Boolean `#define TRUE 0xFF`. -/
def TRUE : Nat := 0xFF

/-- Boolean `#define FALSE 0x00`. -/
def FALSE : Nat := 0x00

/-- Macro `#define NOT(x) ((x==FALSE)?TRUE:FALSE)`. -/
def NOT (x : Nat) : Nat := if x = FALSE then TRUE else FALSE

/-- Macro `#define SET(x,y) x |= (1 << y)`: the new value of `x`. -/
def SET (x y : Nat) : Nat := x ||| (1 <<< y)

/-- Macro `#define CLEAR(x,y) x &= ~(1<< y)`: the new value of `x`; the complement is taken
in the 16-bit `int` of the target. -/
def CLEAR (x y : Nat) : Nat := x &&& (0xFFFF ^^^ (1 <<< y))

/-- Macro `#define READ(x,y) ((FALSE == ((x & (1<<y))>> y))?FALSE:TRUE)`. -/
def READ (x y : Nat) : Nat := if FALSE = ((x &&& (1 <<< y)) >>> y) then FALSE else TRUE

/-- Event kind `EVENT_500MS` of the anonymous enumeration. -/
def EVENT_500MS : Nat := 0

/-- Event kind `EVENT_DECIMATE`. -/
def EVENT_DECIMATE : Nat := 1

/-- Event kind `EVENT_PUSHBUTTON`. -/
def EVENT_PUSHBUTTON : Nat := 2

/-- Event kind `EVENT_READ_ADC_Y`. -/
def EVENT_READ_ADC_Y : Nat := 3

/-- Event kind `EVENT_FORWARD_MOTION`. -/
def EVENT_FORWARD_MOTION : Nat := 4

/-- Event kind `EVENT_HALT`. -/
def EVENT_HALT : Nat := 5

/-- Timer reload value `#define PERIOD_800HZ 0xFFD9`. -/
def PERIOD_800HZ : Nat := 0xFFD9

/-- Timer reload value `#define TIMER1_PERIOD PERIOD_800HZ`. -/
def TIMER1_PERIOD : Nat := PERIOD_800HZ

/-- Tick count `#define PERIOD_HB_LED 400`. -/
def PERIOD_HB_LED : Nat := 400

/-- Tick count `#define PERIOD_DECIMATE 40`. -/
def PERIOD_DECIMATE : Nat := 40

/-! ## Main loop -/

/-- The two copies of the source file; their main loops differ in where the UART bytes are
written. -/
inductive Copy where
  | proj
  | studio
deriving DecidableEq, Repr

/-- Hardware registers read during one pass of the main loop: the timer flag register, the
pin register of the push button, and the ADC data register once the conversion is over. -/
structure Inputs where
  TIFR1 : Nat
  PINC : Nat
  ADCH : Nat
deriving DecidableEq, Repr

/-- Hardware writes and function calls made by a pass of the main loop, in program order. -/
inductive Action where
  | ack_overflow
  | reload_TCNT1 (v : Nat)
  | adc_convert (adc_y_axis : Int)
  | lp_call (x : Int)
  | hp_call (x : Int)
  | velocity_call (x : Int)
  | uart_tx (byte : Int)
  | portd_write (v : Nat)
deriving DecidableEq, Repr

/-- Globals `ticks` and `events` (both `uint32_t`), the statics of the three DSP functions,
the locals of `main` that live across passes, and the output register `PORTD`. -/
structure MainState where
  ticks : Nat
  events : Nat
  lp : LpState
  hp : HpState
  vel : VelState
  filtered_y_axis : Int
  velocity : Int
  PORTD : Nat
deriving DecidableEq, Repr

/-- State when the main loop is entered: initialisers of the globals, statics and locals;
`PORTD` has gone through `CLEAR(PORTD,7); SET(PORTD,7); CLEAR(PORTD,7)` from its reset value
zero. -/
def main_init : MainState :=
  { ticks := 0, events := 0x0000, lp := lp_init, hp := hp_init, vel := vel_init,
    filtered_y_axis := 0, velocity := 0x0000,
    PORTD := (CLEAR ((SET ((CLEAR 0 7) % 2 ^ 8) 7) % 2 ^ 8) 7) % 2 ^ 8 }

/-- Labels of the decimation `switch(ticks)`. -/
def decimate_labels : List Nat := [0, 40, 80, 120, 160, 200, 240, 280, 320, 360, 400]

/-- Block `if(TRUE == timer_overflow) { ... }` of the main loop. -/
def poll_timer (inp : Inputs) (st : MainState) : MainState × List Action :=
  let timer_overflow := READ inp.TIFR1 0
  if TRUE = timer_overflow then
    let ticks := (st.ticks + 1) % 2 ^ 32
    let events := (SET st.events EVENT_READ_ADC_Y) % 2 ^ 32
    let events := if ticks ∈ decimate_labels then (SET events EVENT_DECIMATE) % 2 ^ 32 else events
    if PERIOD_HB_LED = ticks then
      ({ st with ticks := 0, events := (SET events EVENT_500MS) % 2 ^ 32 },
        [Action.ack_overflow, Action.reload_TCNT1 TIMER1_PERIOD])
    else
      ({ st with ticks := ticks, events := events },
        [Action.ack_overflow, Action.reload_TCNT1 TIMER1_PERIOD])
  else (st, [])

/-- Block `if(TRUE == NOT(READ(PINC,4))) { SET(events,EVENT_PUSHBUTTON); }`. -/
def poll_pushbutton (inp : Inputs) (st : MainState) : MainState :=
  if TRUE = NOT (READ inp.PINC 4) then
    { st with events := (SET st.events EVENT_PUSHBUTTON) % 2 ^ 32 }
  else st

/-- First half of a pass: the events of this pass are collected into `events`. -/
def gather_events (inp : Inputs) (st : MainState) : MainState × List Action :=
  let t := poll_timer inp st
  (poll_pushbutton inp t.1, t.2)

/-- Block `if(TRUE == READ(events,EVENT_READ_ADC_Y)) { ... }`: conversion, both filters, and
in the `proj` copy three UART bytes.  The busy-waits on hardware flags are taken to end. -/
def handle_read_adc (c : Copy) (inp : Inputs) (st : MainState) : MainState × List Action :=
  if TRUE = READ st.events EVENT_READ_ADC_Y then
    let adc_y_axis : Int := toU8 (inp.ADCH : Int)
    let lp := adc_lp_filter st.lp adc_y_axis
    let hp := adc_hp_filter st.hp lp.1
    let filtered_y_axis := hp.1
    ({ st with lp := lp.2, hp := hp.2, filtered_y_axis := filtered_y_axis },
      [Action.adc_convert adc_y_axis, Action.lp_call adc_y_axis, Action.hp_call lp.1] ++
      (match c with
        | Copy.proj =>
          [Action.uart_tx (toU8 (asr filtered_y_axis 24)),
           Action.uart_tx (toU8 (asr filtered_y_axis 16)), Action.uart_tx 0x77]
        | Copy.studio => []))
  else (st, [])

/-- Block `if(TRUE == READ(events,EVENT_DECIMATE)) { ... }`: the velocity integrator, and in
the `studio` copy two UART bytes. -/
def handle_decimate (c : Copy) (st : MainState) : MainState × List Action :=
  if TRUE = READ st.events EVENT_DECIMATE then
    let v := compute_velocity st.vel st.filtered_y_axis
    ({ st with vel := v.2, velocity := v.1 },
      [Action.velocity_call st.filtered_y_axis] ++
      (match c with
        | Copy.proj => []
        | Copy.studio =>
          [Action.uart_tx (toU8 (asr st.filtered_y_axis 24)),
           Action.uart_tx (toU8 (asr st.filtered_y_axis 16))]))
  else (st, [])

/-- Block `if(TRUE == READ(events,EVENT_FORWARD_MOTION)) { SET(PORTD,7); }`. -/
def handle_forward_motion (st : MainState) : MainState × List Action :=
  if TRUE = READ st.events EVENT_FORWARD_MOTION then
    ({ st with PORTD := (SET st.PORTD 7) % 2 ^ 8 }, [Action.portd_write ((SET st.PORTD 7) % 2 ^ 8)])
  else (st, [])

/-- Block `if(TRUE == READ(events,EVENT_HALT)) { CLEAR(PORTD,7); }`. -/
def handle_halt (st : MainState) : MainState × List Action :=
  if TRUE = READ st.events EVENT_HALT then
    ({ st with PORTD := (CLEAR st.PORTD 7) % 2 ^ 8 },
      [Action.portd_write ((CLEAR st.PORTD 7) % 2 ^ 8)])
  else (st, [])

/-- Second half of a pass: the handlers in program order, then `events = 0x0000;`. -/
def dispatch_events (c : Copy) (inp : Inputs) (st : MainState) : MainState × List Action :=
  let a := handle_read_adc c inp st
  let d := handle_decimate c a.1
  let f := handle_forward_motion d.1
  let h := handle_halt f.1
  ({ h.1 with events := 0x0000 }, a.2 ++ d.2 ++ f.2 ++ h.2)

/-- One pass of `while(1) { ... }`. -/
def main_loop_body (c : Copy) (inp : Inputs) (st : MainState) : MainState × List Action :=
  let g := gather_events inp st
  let d := dispatch_events c inp g.1
  (d.1, g.2 ++ d.2)

/-- State after the main loop has made one pass for each element of the input list, from
the state at loop entry. -/
def main_run (c : Copy) (inps : List Inputs) : MainState :=
  inps.foldl (fun st inp => (main_loop_body c inp st).1) main_init

/-- Whether an action is the ADC conversion or one of the two filter calls. -/
def Action.isSampling : Action → Bool
  | Action.adc_convert _ => true
  | Action.lp_call _ => true
  | Action.hp_call _ => true
  | _ => false

/-! ## Runs over sample sequences -/

/-- Values returned by `adc_lp_filter` on a sequence of samples, and the statics left
behind. -/
def lp_run : LpState → List Int → List Int × LpState
  | st, [] => ([], st)
  | st, x :: xs =>
    ((adc_lp_filter st x).1 :: (lp_run (adc_lp_filter st x).2 xs).1,
      (lp_run (adc_lp_filter st x).2 xs).2)

/-- Outputs of the filter cascade on a sequence of samples, and the statics of both filters
left behind. -/
def cascade_run : LpState × HpState → List Int → List Int × (LpState × HpState)
  | st, [] => ([], st)
  | st, x :: xs =>
    ((cascade st x).1 :: (cascade_run (cascade st x).2 xs).1,
      (cascade_run (cascade st x).2 xs).2)

/-! ## Runs of the main loop -/

/-- Whether the timer-overflow flag is seen set in a pass: `TRUE == READ(TIFR1,0)`. -/
def overflowed (inp : Inputs) : Bool := decide (TRUE = READ inp.TIFR1 0)

/-- Number of passes of a run in which the timer-overflow flag was set. -/
def overflows (inps : List Inputs) : Nat := inps.countP overflowed

/-- ADC readings taken in a run that starts at loop entry: `adc_y_axis = ADCH` once in each
pass with the overflow flag set. -/
def samples (inps : List Inputs) : List Int :=
  (inps.filter overflowed).map (fun inp => toU8 (inp.ADCH : Int))

/-- State and trace after the main loop has made one pass for each element of the input
list, from a given state. -/
def main_run_from (c : Copy) : MainState → List Inputs → MainState × List Action
  | st, [] => (st, [])
  | st, inp :: inps =>
    ((main_run_from c (main_loop_body c inp st).1 inps).1,
      (main_loop_body c inp st).2 ++ (main_run_from c (main_loop_body c inp st).1 inps).2)

/-- Hardware writes and calls of a whole run from loop entry, in program order. -/
def main_trace (c : Copy) (inps : List Inputs) : List Action :=
  (main_run_from c main_init inps).2

/-- Whether an action is a call of `compute_velocity`. -/
def Action.isVelocityCall : Action → Bool
  | Action.velocity_call _ => true
  | _ => false

/-- Tick counts at which the decimation event can be set in a run: the labels of the
`switch` other than `case 0`. -/
def decimate_ticks : List Nat := [40, 80, 120, 160, 200, 240, 280, 320, 360, 400]

/-! ## Light outputs and the tick timer -/

/-- The three lights of the I/O list in `main`: Green on port B pin 1, Red on port D pin 5,
Yellow on port D pin 6, each `Controlled via timer, not GPIO`. -/
inductive Light where
  | Red
  | Yellow
  | Green
deriving DecidableEq, Repr

/-- Hardware registers, as far as the source writes them or the lights depend on them. -/
inductive Reg where
  | DDRB
  | DDRD
  | PORTD
  | TCCR0A
  | TCCR0B
  | OCR0A
  | OCR0B
  | TCCR1A
  | TCCR1B
  | TCNT1
  | TIFR1
  | ADCSRA
  | UDR0
deriving DecidableEq, Repr

/-- Register written by an action of the main loop; the three function calls write none. -/
def Action.target : Action → Option Reg
  | Action.ack_overflow => some Reg.TIFR1
  | Action.reload_TCNT1 _ => some Reg.TCNT1
  | Action.adc_convert _ => some Reg.ADCSRA
  | Action.lp_call _ => none
  | Action.hp_call _ => none
  | Action.velocity_call _ => none
  | Action.uart_tx _ => some Reg.UDR0
  | Action.portd_write _ => some Reg.PORTD

/-- Compare value `#define GREEN_PWM 0x80`. -/
def GREEN_PWM : Nat := 0x80

/-- Compare value `#define YELLOW_PWM 0x80`. -/
def YELLOW_PWM : Nat := 0x80

/-- Compare value `#define RED_PWM 0x80`. -/
def RED_PWM : Nat := 0x80

/-- Values of the light registers when the main loop is entered. -/
structure LightRegs where
  DDRB : Nat
  DDRD : Nat
  TCCR0A : Nat
  TCCR0B : Nat
  OCR0A : Nat
  OCR0B : Nat
  TCCR1A : Nat
  TCCR1B : Nat
deriving DecidableEq, Repr

/-- Initialisation part of `main`, from the reset value zero of every register:
`SET(DDRD,7); SET(DDRD,6);` (the line `SET(DDRD,5);` is commented out), `TCCR1A = 0x00;`,
`TCCR0A = (0x02<<6) | (0x02<<4) | (0x03);`, `OCR0A = YELLOW_PWM; OCR0B = 0x01;`,
`TCCR0B = (0x00<<7) | (0x00<<6) | (0x00<<3) | (0x01);`, `TCCR1B = 0x04;`.
`DDRB` is never written. -/
def main_setup : LightRegs :=
  { DDRB := 0,
    DDRD := (SET ((SET 0 7) % 2 ^ 8) 6) % 2 ^ 8,
    TCCR0A := ((0x02 <<< 6) ||| (0x02 <<< 4) ||| 0x03) % 2 ^ 8,
    TCCR0B := ((0x00 <<< 7) ||| (0x00 <<< 6) ||| (0x00 <<< 3) ||| 0x01) % 2 ^ 8,
    OCR0A := YELLOW_PWM,
    OCR0B := 0x01,
    TCCR1A := 0x00,
    TCCR1B := 0x04 }

/-- Reading of the light hardware taken from the comments of the source (`the DDRn bits for
the output compare lines must be set to output for any of this to work`; lights are
`Controlled via timer, not GPIO`): a light is commanded on when its pin is an output, the
compare output of its timer is connected to the pin (bits COMnx of TCCRnA not zero) and the
timer is clocked (clock-select bits of TCCRnB not zero).  Red is compare output B of timer 0
(port D pin 5), Yellow compare output A of timer 0 (port D pin 6), Green compare output A
of timer 1 (port B pin 1). -/
def light_commanded (r : LightRegs) : Light → Bool
  | Light.Red =>
    r.DDRD.testBit 5 && ((r.TCCR0A >>> 4) &&& 3 != 0) && (r.TCCR0B &&& 7 != 0)
  | Light.Yellow =>
    r.DDRD.testBit 6 && ((r.TCCR0A >>> 6) &&& 3 != 0) && (r.TCCR0B &&& 7 != 0)
  | Light.Green =>
    r.DDRB.testBit 1 && ((r.TCCR1A >>> 6) &&& 3 != 0) && (r.TCCR1B &&& 7 != 0)

/-- Lights commanded on by a register configuration. -/
def lights_on (r : LightRegs) : List Light :=
  [Light.Red, Light.Yellow, Light.Green].filter (light_commanded r)

/-- Clock `#define F_CPU 8000000`, in Hz. -/
def F_CPU : Nat := 8000000

/-- Prescaler of timer 1 selected by `TCCR1B = 0x04` (`Clock select: ClkIO/256`). -/
def timer1_prescale : Nat := 256

/-- Timer counts from a reload value to the overflow of the 16-bit counter (it overflows
when it leaves 0xFFFF). -/
def timer1_counts (reload : Nat) : Nat := 2 ^ 16 - reload

/-- CPU cycles from the reload `TCNT1 = TIMER1_PERIOD` to the next overflow. -/
def tick_period_cycles : Nat := timer1_prescale * timer1_counts TIMER1_PERIOD

/-! ## High-pass terms and the range of the cascade -/

/-- The three terms `temp`, `temp2`, `temp3` of `adc_hp_filter` over unbounded integers:
each product shifted right by 16, without the casts to `int32_t`. -/
def hp_terms (st : HpState) (adc_sample : Int) : Int × Int × Int :=
  (asr (st.last_result * HPF_A1) 16, asr (st.last_sample * HPF_B1) 16,
    asr (adc_sample * HPF_B0) 16)

/-- Invariant of the cascade on 8-bit samples from the initial statics: the low-pass result
is in 0 .. 0x00FF0000, the high-pass statics hold a low-pass result below 0x00FF0000, and the
high-pass result lies between the scaled stored sample minus 255 * HPF_B0 and the scaled
stored sample. -/
def CascInv (p : LpState × HpState) : Prop :=
  isU8 p.1.last_sample ∧ 0 ≤ p.1.last_result ∧ p.1.last_result ≤ 0x00FF0000 ∧
  0 ≤ p.2.last_sample ∧ p.2.last_sample < 0x00FF0000 ∧
  asr (p.2.last_sample * HPF_B1) 16 - 255 * HPF_B0 ≤ p.2.last_result ∧
  p.2.last_result ≤ asr (p.2.last_sample * HPF_B1) 16

/-- Whether an action is a write to `PORTD`. -/
def Action.isPortdWrite : Action → Bool
  | Action.portd_write _ => true
  | _ => false

/-! ## The machine: light registers and software state -/

/-- First low-pass call on the rest reading: 0x00580000 falls to 5767080. -/
theorem adc_lp_filter_first_call :
    adc_lp_filter lp_init 0x58 = (5767080, ⟨0x58, 5767080⟩) := by decide

set_option maxRecDepth 4096 in
/-- First high-pass call on that low-pass output returns -276. -/
theorem adc_hp_filter_first_call :
    adc_hp_filter hp_init 5767080 = (-276, ⟨5767080, -276⟩) := by decide

/-- Arithmetic shift of a negative accumulator: -1 >> 16 is -1. -/
theorem compute_velocity_negative :
    compute_velocity ⟨0, 0⟩ (-2) = (-1, ⟨-1, -2⟩) := by decide

/-- The 400th overflow, with the button released and the ADC at 0x60, in the `proj` copy:
ticks wrap to 0, both filters and the integrator run, three bytes are sent. -/
theorem main_loop_body_tick_400 :
    main_loop_body Copy.proj ⟨0x01, 0x10, 0x60⟩ { main_init with ticks := 399 } =
      ({ ticks := 0, events := 0, lp := ⟨0x60, 5786888⟩, hp := ⟨5786888, 61829⟩,
         vel := ⟨30914, 61829⟩, filtered_y_axis := 61829, velocity := 0, PORTD := 0 },
       [Action.ack_overflow, Action.reload_TCNT1 0xFFD9, Action.adc_convert 0x60,
        Action.lp_call 0x60, Action.hp_call 5786888, Action.uart_tx 0, Action.uart_tx 0,
        Action.uart_tx 0x77, Action.velocity_call 61829]) := by decide

/-- A pass without overflow and with the button pressed does nothing but clear the event
word again. -/
theorem main_loop_body_idle :
    main_loop_body Copy.studio ⟨0x00, 0x00, 0x60⟩ main_init = (main_init, []) := by decide

/-! ## Lemmas on machine integers -/

theorem asr_16 (z : Int) : asr z 16 = z / 65536 := by
  unfold asr; rw [Int.shiftRight_eq_div_pow]; norm_num

theorem asr_1 (z : Int) : asr z 1 = z / 2 := by
  unfold asr; rw [Int.shiftRight_eq_div_pow]; norm_num

theorem isU8_iff (z : Int) : isU8 z ↔ 0 ≤ z ∧ z < 256 := by
  unfold isU8; norm_num

theorem isI16_iff (z : Int) : isI16 z ↔ -32768 ≤ z ∧ z < 32768 := by
  unfold isI16; norm_num

theorem isI32_iff (z : Int) : isI32 z ↔ -2147483648 ≤ z ∧ z < 2147483648 := by
  unfold isI32; norm_num

theorem isI64_iff (z : Int) :
    isI64 z ↔ -9223372036854775808 ≤ z ∧ z < 9223372036854775808 := by
  unfold isI64; norm_num

theorem toI32_eq (z : Int) : toI32 z = (z + 2147483648) % 4294967296 - 2147483648 := by
  unfold toI32; norm_num

theorem toU32_eq (z : Int) : toU32 z = z % 4294967296 := by
  unfold toU32; norm_num

theorem toI16_eq (z : Int) : toI16 z = (z + 32768) % 65536 - 32768 := by
  unfold toI16; norm_num

theorem toI64_eq (z : Int) :
    toI64 z = (z + 9223372036854775808) % 18446744073709551616 - 9223372036854775808 := by
  unfold toI64; norm_num

theorem isI32_toI32 (z : Int) : isI32 (toI32 z) := by
  rw [isI32_iff, toI32_eq]; omega

theorem toI16_of_isI16 {z : Int} (h : isI16 z) : toI16 z = z := by
  rw [isI16_iff] at h; rw [toI16_eq]; omega

theorem toI32_of_isI32 {z : Int} (h : isI32 z) : toI32 z = z := by
  rw [isI32_iff] at h; rw [toI32_eq]; omega

theorem toI64_of_isI64 {z : Int} (h : isI64 z) : toI64 z = z := by
  rw [isI64_iff] at h; rw [toI64_eq]; omega

theorem toI32_toU32 (z : Int) : toI32 (toU32 z) = toI32 z := by
  rw [toI32_eq, toI32_eq, toU32_eq]; omega

theorem toU32_add_toU32 (a b : Int) : toU32 (toU32 a + toU32 b) = toU32 (a + b) := by
  simp only [toU32_eq]; omega

theorem toU32_toU32 (a : Int) : toU32 (toU32 a) = toU32 a := by
  simp only [toU32_eq]; omega

theorem toU32_toI32 (a : Int) : toU32 (toI32 a) = toU32 a := by
  simp only [toU32_eq, toI32_eq]; omega

theorem isI32_of_isU8 {z : Int} (h : isU8 z) : isI32 z := by
  rw [isU8_iff] at h; rw [isI32_iff]; omega

theorem isI64_of_isI32 {z : Int} (h : isI32 z) : isI64 z := by
  rw [isI32_iff] at h; rw [isI64_iff]; omega

/-! ## Low-pass step -/

theorem lp_term_x {x : Int} (hx : isU8 x) : 0 ≤ x * LPF_B0 ∧ isI32 (x * LPF_B0) := by
  rw [isU8_iff] at hx; rw [isI32_iff]; unfold LPF_B0; omega

theorem lp_term_s {s : Int} (hs : isU8 s) : 0 ≤ s * LPF_B1 ∧ isI32 (s * LPF_B1) := by
  rw [isU8_iff] at hs; rw [isI32_iff]; unfold LPF_B1; omega

theorem lp_prod_r {r : Int} (hr : isI32 r) : isI64 (r * LPF_A1) := by
  rw [isI32_iff] at hr; rw [isI64_iff]; unfold LPF_A1; omega

theorem lp_term_r {r : Int} (hr : isI32 r) : isI32 (asr (r * LPF_A1) 16) := by
  rw [isI32_iff] at hr; rw [isI32_iff, asr_16]; unfold LPF_A1; omega

theorem lp_sum {s r x : Int} (hs : isU8 s) (hr : isI32 r) (hx : isU8 x) :
    isI32 (x * LPF_B0 + s * LPF_B1 + asr (r * LPF_A1) 16) := by
  rw [isU8_iff] at hs hx; rw [isI32_iff] at hr
  rw [isI32_iff, asr_16]; unfold LPF_A1 LPF_B0 LPF_B1; omega

/-- On well-typed operands no conversion inside `adc_lp_filter` changes a value. -/
theorem adc_lp_filter_eq {s r x : Int} (hs : isU8 s) (hr : isI32 r) (hx : isU8 x) :
    adc_lp_filter ⟨s, r⟩ x =
      (x * LPF_B0 + s * LPF_B1 + asr (r * LPF_A1) 16,
        ⟨x, x * LPF_B0 + s * LPF_B1 + asr (r * LPF_A1) 16⟩) := by
  simp only [adc_lp_filter, toI32_of_isI32 (isI32_of_isU8 hx),
    toI32_of_isI32 (isI32_of_isU8 hs), toI32_of_isI32 (lp_term_x hx).2,
    toI32_of_isI32 (lp_term_s hs).2, toI64_of_isI64 (isI64_of_isI32 hr),
    toI64_of_isI64 (lp_prod_r hr), toU32_add_toU32, toU32_toU32, toI32_toU32,
    toI32_of_isI32 (lp_term_r hr), toI32_of_isI32 (lp_sum hs hr hx)]

/-- C1. Low-pass step: on every well-typed state (last_sample s, last_result r) and every
8-bit sample x, adc_lp_filter returns LPF_B0*x + LPF_B1*s + ((r*LPF_A1) >> 16), the product
r*LPF_A1 fits the 64-bit intermediate, and afterwards last_sample is x and last_result is
the returned value. -/
theorem C1_lp_step (s r x : Int) (hs : isU8 s) (hr : isI32 r) (hx : isU8 x) :
    (adc_lp_filter ⟨s, r⟩ x).1 = LPF_B0 * x + LPF_B1 * s + asr (r * LPF_A1) 16 ∧
    isI64 (r * LPF_A1) ∧
    (adc_lp_filter ⟨s, r⟩ x).2.last_sample = x ∧
    (adc_lp_filter ⟨s, r⟩ x).2.last_result = (adc_lp_filter ⟨s, r⟩ x).1 := by
  rw [adc_lp_filter_eq hs hr hx]
  refine ⟨?_, lp_prod_r hr, rfl, rfl⟩
  simp only [mul_comm]

/-- Witness of C1: the initial state and the sample 0x60. -/
theorem C1_lp_step_witness :
    (adc_lp_filter ⟨0x58, 0x00580000⟩ 0x60).1
        = LPF_B0 * 0x60 + LPF_B1 * 0x58 + asr (0x00580000 * LPF_A1) 16 ∧
    isI64 (0x00580000 * LPF_A1) ∧
    (adc_lp_filter ⟨0x58, 0x00580000⟩ 0x60).2.last_sample = 0x60 ∧
    (adc_lp_filter ⟨0x58, 0x00580000⟩ 0x60).2.last_result
        = (adc_lp_filter ⟨0x58, 0x00580000⟩ 0x60).1 :=
  C1_lp_step 0x58 0x00580000 0x60 (by decide) (by decide) (by decide)

/-- C3. No precision is lost to under-width intermediates in the low-pass step: for every
8-bit sample, 8-bit last_sample and 32-bit signed last_result, both coefficient products are
non-negative and fit in 32 bits, the product last_result*LPF_A1 fits in 64 bits and its
shift by 16 fits in 32 bits, the sum fits in a signed 32-bit word, and the value returned by
adc_lp_filter equals the same expression over unbounded integers. -/
theorem C3_lp_no_overflow (s r x : Int) (hs : isU8 s) (hr : isI32 r) (hx : isU8 x) :
    (0 ≤ x * LPF_B0 ∧ isI32 (x * LPF_B0)) ∧
    (0 ≤ s * LPF_B1 ∧ isI32 (s * LPF_B1)) ∧
    isI64 (r * LPF_A1) ∧
    isI32 (asr (r * LPF_A1) 16) ∧
    isI32 (x * LPF_B0 + s * LPF_B1 + asr (r * LPF_A1) 16) ∧
    (adc_lp_filter ⟨s, r⟩ x).1 = lp_ideal s r x := by
  refine ⟨lp_term_x hx, lp_term_s hs, lp_prod_r hr, lp_term_r hr, lp_sum hs hr hx, ?_⟩
  rw [adc_lp_filter_eq hs hr hx]
  simp only [lp_ideal, asr_16, mul_comm]
  norm_num

/-- Witness of C3: the largest operands. -/
theorem C3_lp_no_overflow_witness :
    (0 ≤ (255 : Int) * LPF_B0 ∧ isI32 (255 * LPF_B0)) ∧
    (0 ≤ (255 : Int) * LPF_B1 ∧ isI32 (255 * LPF_B1)) ∧
    isI64 (2147483647 * LPF_A1) ∧
    isI32 (asr (2147483647 * LPF_A1) 16) ∧
    isI32 (255 * LPF_B0 + 255 * LPF_B1 + asr (2147483647 * LPF_A1) 16) ∧
    (adc_lp_filter ⟨255, 2147483647⟩ 255).1 = lp_ideal 255 2147483647 255 :=
  C3_lp_no_overflow 255 2147483647 255 (by decide) (by decide) (by decide)

/-! ## High-pass step -/

theorem hp_prod {z c : Int} (hz : isI32 z) (hc : 0 ≤ c ∧ c < 4294967296) : isI64 (z * c) := by
  rw [isI32_iff] at hz; rw [isI64_iff]
  obtain ⟨h1, h2⟩ := hz
  obtain ⟨h3, h4⟩ := hc
  constructor <;> nlinarith

theorem hp_term_r {r : Int} (hr : isI32 r) : isI32 (asr (r * HPF_A1) 16) := by
  rw [isI32_iff] at hr; rw [isI32_iff, asr_16]; unfold HPF_A1; omega

/-- What `adc_hp_filter` returns on well-typed operands: the casts of the second and third
term and of the sum remain. -/
theorem adc_hp_filter_eq {s r x : Int} (hs : isI32 s) (hr : isI32 r) (hx : isI32 x) :
    adc_hp_filter ⟨s, r⟩ x =
      (toI32 (asr (r * HPF_A1) 16 - toI32 (asr (s * HPF_B1) 16) + toI32 (asr (x * HPF_B0) 16)),
        ⟨x, toI32 (asr (r * HPF_A1) 16 - toI32 (asr (s * HPF_B1) 16)
              + toI32 (asr (x * HPF_B0) 16))⟩) := by
  have e : ∀ a b c : Int, toI32 (toI32 (a - b) + c) = toI32 (a - b + c) := by
    intro a b c; simp only [toI32_eq]; omega
  simp only [adc_hp_filter, toI64_of_isI64 (isI64_of_isI32 hr),
    toI64_of_isI64 (isI64_of_isI32 hs), toI64_of_isI64 (isI64_of_isI32 hx),
    toI64_of_isI64 (@hp_prod r HPF_A1 hr (by unfold HPF_A1; omega)),
    toI64_of_isI64 (@hp_prod s HPF_B1 hs (by unfold HPF_B1; omega)),
    toI64_of_isI64 (@hp_prod x HPF_B0 hx (by unfold HPF_B0; omega)),
    toI32_of_isI32 (hp_term_r hr), e]

/-- C2 fails as stated: on the state (0, 0) and the 32-bit input 2^30 the third term does
not fit in 32 bits, and adc_hp_filter returns -928366592 where the expression of the claim
is 3366600704. -/
theorem C2_hp_step_counterexample :
    isI32 0 ∧ isI32 (2 ^ 30) ∧
    (adc_hp_filter ⟨0, 0⟩ (2 ^ 30)).1 = -928366592 ∧
    asr (0 * HPF_A1) 16 - asr (0 * HPF_B1) 16 + asr (2 ^ 30 * HPF_B0) 16 = 3366600704 ∧
    (adc_hp_filter ⟨0, 0⟩ (2 ^ 30)).1
      ≠ asr (0 * HPF_A1) 16 - asr (0 * HPF_B1) 16 + asr (2 ^ 30 * HPF_B0) 16 := by
  decide

/-- C2 (amended). High-pass step: for every well-typed state (last_sample s, last_result r)
and every 32-bit input x, each of the three products fits in 64 bits, adc_hp_filter returns
the 32-bit wrap of ((r*HPF_A1) >> 16) - int32((s*HPF_B1) >> 16) + int32((x*HPF_B0) >> 16),
afterwards last_sample is x and last_result is the returned value, and whenever the second
and third shifted products and the combination of the three terms fit in a signed 32-bit
word the returned value is exactly
((r*HPF_A1) >> 16) - ((s*HPF_B1) >> 16) + ((x*HPF_B0) >> 16). -/
theorem C2_hp_step (s r x : Int) (hs : isI32 s) (hr : isI32 r) (hx : isI32 x) :
    (isI64 (r * HPF_A1) ∧ isI64 (s * HPF_B1) ∧ isI64 (x * HPF_B0)) ∧
    (adc_hp_filter ⟨s, r⟩ x).1 =
      toI32 (asr (r * HPF_A1) 16 - toI32 (asr (s * HPF_B1) 16)
        + toI32 (asr (x * HPF_B0) 16)) ∧
    (adc_hp_filter ⟨s, r⟩ x).2.last_sample = x ∧
    (adc_hp_filter ⟨s, r⟩ x).2.last_result = (adc_hp_filter ⟨s, r⟩ x).1 ∧
    (isI32 (asr (s * HPF_B1) 16) → isI32 (asr (x * HPF_B0) 16) →
      isI32 (asr (r * HPF_A1) 16 - asr (s * HPF_B1) 16 + asr (x * HPF_B0) 16) →
      (adc_hp_filter ⟨s, r⟩ x).1
        = asr (r * HPF_A1) 16 - asr (s * HPF_B1) 16 + asr (x * HPF_B0) 16) := by
  rw [adc_hp_filter_eq hs hr hx]
  refine ⟨⟨hp_prod hr (by unfold HPF_A1; omega), hp_prod hs (by unfold HPF_B1; omega),
    hp_prod hx (by unfold HPF_B0; omega)⟩, rfl, rfl, rfl, ?_⟩
  intro h2 h3 h
  simp only [toI32_of_isI32 h2, toI32_of_isI32 h3, toI32_of_isI32 h]

/-- Witness of C2 (amended): the first high-pass call on the held sample 0x58. -/
theorem C2_hp_step_witness :
    (isI64 (0 * HPF_A1) ∧ isI64 (0x00580000 * HPF_B1) ∧ isI64 (5767080 * HPF_B0)) ∧
    (adc_hp_filter ⟨0x00580000, 0⟩ 5767080).1 =
      toI32 (asr (0 * HPF_A1) 16 - toI32 (asr (0x00580000 * HPF_B1) 16)
        + toI32 (asr (5767080 * HPF_B0) 16)) ∧
    (adc_hp_filter ⟨0x00580000, 0⟩ 5767080).2.last_sample = 5767080 ∧
    (adc_hp_filter ⟨0x00580000, 0⟩ 5767080).2.last_result
      = (adc_hp_filter ⟨0x00580000, 0⟩ 5767080).1 ∧
    (isI32 (asr (0x00580000 * HPF_B1) 16) → isI32 (asr (5767080 * HPF_B0) 16) →
      isI32 (asr (0 * HPF_A1) 16 - asr (0x00580000 * HPF_B1) 16 + asr (5767080 * HPF_B0) 16) →
      (adc_hp_filter ⟨0x00580000, 0⟩ 5767080).1
        = asr (0 * HPF_A1) 16 - asr (0x00580000 * HPF_B1) 16 + asr (5767080 * HPF_B0) 16) :=
  C2_hp_step 0x00580000 0 5767080 (by decide) (by decide) (by decide)

/-! ## Velocity integrator -/

theorem isI16_asr_16 {z : Int} (h : isI32 z) : isI16 (asr z 16) := by
  rw [isI32_iff] at h; rw [isI16_iff, asr_16]; omega

/-- C4 fails as stated: with accumulator 0, last value 2^30 and input 2^30 the sum of the
two operands does not fit in 32 bits; compute_velocity leaves -2^30 in the accumulator,
where adding (last_value + f) / 2 gives 2^30. -/
theorem C4_velocity_counterexample :
    isI32 (2 ^ 30) ∧
    (compute_velocity ⟨0, 2 ^ 30⟩ (2 ^ 30)).2.current_velocity = -(2 ^ 30) ∧
    (0 : Int) + asr (2 ^ 30 + 2 ^ 30) 1 = 2 ^ 30 ∧
    (compute_velocity ⟨0, 2 ^ 30⟩ (2 ^ 30)).2.current_velocity
      ≠ toI32 (0 + asr (2 ^ 30 + 2 ^ 30) 1) := by
  decide

/-- C4 (amended). Velocity integrator: for every accumulator value a, stored last_value l
and filtered input f, compute_velocity adds the arithmetic half of the 32-bit sum l + f to
the 32-bit accumulator, which is (l + f) >> 1 whenever l + f fits in a signed 32-bit word,
stores f as the new last_value, and returns accumulator >> 16 of the updated accumulator,
a value in the signed 16-bit range. -/
theorem C4_velocity (a l f : Int) :
    (compute_velocity ⟨a, l⟩ f).2.current_velocity = toI32 (a + asr (toI32 (l + f)) 1) ∧
    (isI32 (l + f) →
      (compute_velocity ⟨a, l⟩ f).2.current_velocity = toI32 (a + asr (l + f) 1)) ∧
    (isI32 (l + f) → isI32 (a + asr (l + f) 1) →
      (compute_velocity ⟨a, l⟩ f).2.current_velocity = a + asr (l + f) 1) ∧
    (compute_velocity ⟨a, l⟩ f).2.last_accel = f ∧
    (compute_velocity ⟨a, l⟩ f).1 = asr (compute_velocity ⟨a, l⟩ f).2.current_velocity 16 ∧
    isI16 (compute_velocity ⟨a, l⟩ f).1 := by
  have h16 := isI16_asr_16 (isI32_toI32 (a + asr (toI32 (l + f)) 1))
  refine ⟨rfl, ?_, ?_, rfl, ?_, ?_⟩
  · intro h
    simp only [compute_velocity, toI32_of_isI32 h]
  · intro h h2
    simp only [compute_velocity, toI32_of_isI32 h, toI32_of_isI32 h2]
  · simp only [compute_velocity, toI16_of_isI16 h16]
  · simp only [compute_velocity, toI16_of_isI16 h16]
    exact h16

/-- Witness of C4 (amended): accumulator 0x00010000, last value 61829, input 61831. -/
theorem C4_velocity_witness :
    (compute_velocity ⟨0x00010000, 61829⟩ 61831).2.current_velocity = 0x00010000 + 61830 :=
  ((C4_velocity 0x00010000 61829 61831).2.2.1 (by decide) (by decide)).trans (by decide)

/-! ## Settling of a monotone integer recurrence -/

/-- A monotone map on the integers that can only increase below `U` reaches a fixed point
from every start that it does not decrease. -/
theorem settles_up (F : Int → Int) (P : Int → Prop) (U : Int)
    (hP : ∀ r, P r → P (F r))
    (hmono : ∀ a b, P a → P b → a ≤ b → F a ≤ F b)
    (hU : ∀ r, P r → r ≤ F r → r ≤ U) :
    ∀ (d : Nat) (r : Int), P r → r ≤ F r → U - r ≤ d →
      ∃ N y, F y = y ∧ ∀ n, N ≤ n → F^[n] r = y := by
  intro d
  induction d with
  | zero =>
    intro r hr hle hd
    have h1 := hU r hr hle
    have h2 := hU (F r) (hP r hr) (hmono r (F r) hr (hP r hr) hle)
    have hfix : F r = r := by
      have : (U : Int) - r ≤ 0 := by exact_mod_cast hd
      omega
    exact ⟨0, r, hfix, fun n _ => Function.iterate_fixed hfix n⟩
  | succ d ih =>
    intro r hr hle hd
    by_cases hfix : F r = r
    · exact ⟨0, r, hfix, fun n _ => Function.iterate_fixed hfix n⟩
    · have hlt : r < F r := lt_of_le_of_ne hle (Ne.symm hfix)
      have hd' : U - F r ≤ (d : Int) := by
        have : U - r ≤ (d : Int) + 1 := by exact_mod_cast hd
        omega
      obtain ⟨N, y, hy, hN⟩ :=
        ih (F r) (hP r hr) (hmono r (F r) hr (hP r hr) hle) hd'
      refine ⟨N + 1, y, hy, ?_⟩
      intro n hn
      obtain ⟨m, rfl⟩ : ∃ m, n = m + 1 := ⟨n - 1, by omega⟩
      rw [Function.iterate_succ_apply]
      exact hN m (by omega)

/-- A monotone map on the integers that can only decrease above `L` reaches a fixed point
from every start that it does not increase. -/
theorem settles_down (F : Int → Int) (P : Int → Prop) (L : Int)
    (hP : ∀ r, P r → P (F r))
    (hmono : ∀ a b, P a → P b → a ≤ b → F a ≤ F b)
    (hL : ∀ r, P r → F r ≤ r → L ≤ r) :
    ∀ (d : Nat) (r : Int), P r → F r ≤ r → r - L ≤ d →
      ∃ N y, F y = y ∧ ∀ n, N ≤ n → F^[n] r = y := by
  intro d
  induction d with
  | zero =>
    intro r hr hle hd
    have h1 := hL r hr hle
    have h2 := hL (F r) (hP r hr) (hmono (F r) r (hP r hr) hr hle)
    have hfix : F r = r := by
      have : r - L ≤ 0 := by exact_mod_cast hd
      omega
    exact ⟨0, r, hfix, fun n _ => Function.iterate_fixed hfix n⟩
  | succ d ih =>
    intro r hr hle hd
    by_cases hfix : F r = r
    · exact ⟨0, r, hfix, fun n _ => Function.iterate_fixed hfix n⟩
    · have hlt : F r < r := lt_of_le_of_ne hle hfix
      have hd' : F r - L ≤ (d : Int) := by
        have : r - L ≤ (d : Int) + 1 := by exact_mod_cast hd
        omega
      obtain ⟨N, y, hy, hN⟩ :=
        ih (F r) (hP r hr) (hmono (F r) r (hP r hr) hr hle) hd'
      refine ⟨N + 1, y, hy, ?_⟩
      intro n hn
      obtain ⟨m, rfl⟩ : ∃ m, n = m + 1 := ⟨n - 1, by omega⟩
      rw [Function.iterate_succ_apply]
      exact hN m (by omega)

/-- A monotone integer map that increases only below `U` and decreases only above `L`
reaches a fixed point from every start. -/
theorem settles (F : Int → Int) (P : Int → Prop) (L U : Int)
    (hP : ∀ r, P r → P (F r))
    (hmono : ∀ a b, P a → P b → a ≤ b → F a ≤ F b)
    (hL : ∀ r, P r → F r ≤ r → L ≤ r)
    (hU : ∀ r, P r → r ≤ F r → r ≤ U) (r : Int) (hr : P r) :
    ∃ N y, F y = y ∧ ∀ n, N ≤ n → F^[n] r = y := by
  rcases le_total r (F r) with h | h
  · exact settles_up F P U hP hmono hU (U - r).toNat r hr h (by omega)
  · exact settles_down F P L hP hmono hL (r - L).toNat r hr h (by omega)

/-! ## Low-pass filter on a held sample -/

theorem adc_lp_filter_isI32 (st : LpState) (x : Int) : isI32 (adc_lp_filter st x).1 :=
  isI32_toI32 _

theorem adc_lp_filter_snd (st : LpState) (x : Int) :
    (adc_lp_filter st x).2 = ⟨x, (adc_lp_filter st x).1⟩ := rfl

theorem lp_hold_settled (x : Int) (n : Nat) (r : Int) :
    lp_hold x n ⟨x, r⟩ = ⟨x, (fun z => (adc_lp_filter ⟨x, z⟩ x).1)^[n] r⟩ := by
  induction n generalizing r with
  | zero => rfl
  | succ n ih =>
    rw [Function.iterate_succ_apply]
    show lp_hold x n (adc_lp_filter ⟨x, r⟩ x).2 = _
    rw [adc_lp_filter_snd, ih]

theorem lp_hold_out_succ (x : Int) (n : Nat) (st : LpState) :
    lp_hold_out x (n + 1) st
      = (fun z => (adc_lp_filter ⟨x, z⟩ x).1)^[n + 1] (adc_lp_filter st x).1 := by
  show (adc_lp_filter (lp_hold x n (adc_lp_filter st x).2) x).1 = _
  rw [adc_lp_filter_snd, lp_hold_settled, Function.iterate_succ_apply']

theorem lp_settled_step {x : Int} (hx : isU8 x) {r : Int} (hr : isI32 r) :
    (adc_lp_filter ⟨x, r⟩ x).1 = 4952 * x + r * 60583 / 65536 := by
  rw [adc_lp_filter_eq hx hr hx, asr_16]
  simp only [LPF_B0, LPF_B1, LPF_A1]
  ring

/-- With the sample held at `x` the low-pass recurrence reaches a fixed point from every
32-bit start. -/
theorem lp_settles {x : Int} (hx : isU8 x) (r : Int) (hr : isI32 r) :
    ∃ N y, (adc_lp_filter ⟨x, y⟩ x).1 = y ∧
      ∀ n, N ≤ n → (fun z => (adc_lp_filter ⟨x, z⟩ x).1)^[n] r = y := by
  have hx' := (isU8_iff x).1 hx
  apply settles (fun z => (adc_lp_filter ⟨x, z⟩ x).1) isI32 (-100) 16777216
  · intro z _
    exact adc_lp_filter_isI32 _ _
  · intro a b ha hb hab
    show (adc_lp_filter ⟨x, a⟩ x).1 ≤ (adc_lp_filter ⟨x, b⟩ x).1
    rw [lp_settled_step hx ha, lp_settled_step hx hb]
    omega
  · intro z hz h
    have h' : (adc_lp_filter ⟨x, z⟩ x).1 ≤ z := h
    rw [lp_settled_step hx hz] at h'
    omega
  · intro z hz h
    have h' : z ≤ (adc_lp_filter ⟨x, z⟩ x).1 := h
    rw [lp_settled_step hx hz] at h'
    omega
  · exact hr

/-- Values returned by `adc_lp_filter` on a held sample are eventually a constant that
the step reproduces. -/
theorem lp_hold_out_settles (x : Int) (st : LpState) (hx : isU8 x) :
    ∃ N y, (∀ n, N ≤ n → lp_hold_out x n st = y) ∧ (adc_lp_filter ⟨x, y⟩ x).1 = y := by
  obtain ⟨N, y, hy, hN⟩ := lp_settles hx (adc_lp_filter st x).1 (adc_lp_filter_isI32 st x)
  refine ⟨N + 1, y, ?_, hy⟩
  intro n hn
  obtain ⟨m, rfl⟩ : ∃ m, n = m + 1 := ⟨n - 1, by omega⟩
  rw [lp_hold_out_succ]
  exact hN (m + 1) (by omega)

/-- C5. Low-pass stability: for every 8-bit sample value x and every low-pass filter state,
feeding x to adc_lp_filter on every call makes the returned values eventually constant:
there is a call number N and a value y such that every call from N on returns y, and y is
a fixed point of the step (from last_sample x and last_result y the call returns y and
leaves the state as it is). -/
theorem C5_lp_stability (x : Int) (st : LpState) (hx : isU8 x) :
    ∃ N y, (∀ n, N ≤ n → lp_hold_out x n st = y) ∧
      adc_lp_filter ⟨x, y⟩ x = (y, ⟨x, y⟩) := by
  obtain ⟨N, y, hN, hy⟩ := lp_hold_out_settles x st hx
  refine ⟨N, y, hN, ?_⟩
  rw [Prod.ext_iff]
  refine ⟨hy, ?_⟩
  rw [adc_lp_filter_snd, hy]

/-- Witness of C5: the rest reading 0x58 from the initial state. -/
theorem C5_lp_stability_witness :
    ∃ N y, (∀ n, N ≤ n → lp_hold_out 0x58 n lp_init = y) ∧
      adc_lp_filter ⟨0x58, y⟩ 0x58 = (y, ⟨0x58, y⟩) :=
  C5_lp_stability 0x58 lp_init (by decide)

/-! ## Cascade on a held sample -/

theorem lp_hold_succ (x : Int) (n : Nat) (st : LpState) :
    lp_hold x (n + 1) st = (adc_lp_filter (lp_hold x n st) x).2 := by
  induction n generalizing st with
  | zero => rfl
  | succ n ih =>
    show lp_hold x (n + 1) (adc_lp_filter st x).2 = _
    rw [ih]
    rfl

theorem cascade_hold_fst (x : Int) (n : Nat) : (cascade_hold x n).1 = lp_hold x n lp_init := by
  induction n with
  | zero => rfl
  | succ n ih =>
    rw [lp_hold_succ, ← ih]
    rfl

theorem adc_hp_filter_isI32 (st : HpState) (x : Int) : isI32 (adc_hp_filter st x).1 :=
  isI32_toI32 _

theorem cascade_hold_out_isI32 (x : Int) (n : Nat) : isI32 (cascade_hold_out x n) :=
  adc_hp_filter_isI32 _ _

/-- The high-pass state after a cascade step holds the low-pass output of that step and the
cascade output of that step. -/
theorem cascade_hold_snd (x : Int) (n : Nat) :
    (cascade_hold x (n + 1)).2 = ⟨lp_hold_out x n lp_init, cascade_hold_out x n⟩ := by
  have e : lp_hold_out x n lp_init = (adc_lp_filter (cascade_hold x n).1 x).1 := by
    rw [cascade_hold_fst]; rfl
  rw [e]
  rfl

theorem cascade_hold_out_succ (x : Int) (n : Nat) :
    cascade_hold_out x (n + 1)
      = (adc_hp_filter ⟨lp_hold_out x n lp_init, cascade_hold_out x n⟩
          (lp_hold_out x (n + 1) lp_init)).1 := by
  have e : lp_hold_out x (n + 1) lp_init = (adc_lp_filter (cascade_hold x (n + 1)).1 x).1 := by
    rw [cascade_hold_fst]; rfl
  rw [e, ← cascade_hold_snd]
  rfl

/-- High-pass step when the input equals the stored last sample: only the feedback term
remains. -/
theorem hp_settled_step {y : Int} (hy : isI32 y) {r : Int} (hr : isI32 r) :
    (adc_hp_filter ⟨y, r⟩ y).1 = r * 65279 / 65536 := by
  rw [adc_hp_filter_eq hy hr hy]
  have e : HPF_B1 = HPF_B0 := rfl
  have h := hp_term_r hr
  rw [e, sub_add_cancel, toI32_of_isI32 h, asr_16]
  rfl

/-- With the input held at `y` the high-pass recurrence reaches a fixed point in -255..0
from every 32-bit start. -/
theorem hp_settles {y : Int} (hy : isI32 y) (r : Int) (hr : isI32 r) :
    ∃ N v, (-255 ≤ v ∧ v ≤ 0) ∧
      ∀ n, N ≤ n → (fun z => (adc_hp_filter ⟨y, z⟩ y).1)^[n] r = v := by
  have key : ∃ N v, (fun z => (adc_hp_filter ⟨y, z⟩ y).1) v = v ∧
      ∀ n, N ≤ n → (fun z => (adc_hp_filter ⟨y, z⟩ y).1)^[n] r = v := by
    apply settles (fun z => (adc_hp_filter ⟨y, z⟩ y).1) isI32 (-255) 0
    · intro z _
      exact adc_hp_filter_isI32 _ _
    · intro a b ha hb hab
      show (adc_hp_filter ⟨y, a⟩ y).1 ≤ (adc_hp_filter ⟨y, b⟩ y).1
      rw [hp_settled_step hy ha, hp_settled_step hy hb]
      omega
    · intro z hz h
      have h' : (adc_hp_filter ⟨y, z⟩ y).1 ≤ z := h
      rw [hp_settled_step hy hz] at h'
      omega
    · intro z hz h
      have h' : z ≤ (adc_hp_filter ⟨y, z⟩ y).1 := h
      rw [hp_settled_step hy hz] at h'
      omega
    · exact hr
  obtain ⟨N, v, hv, hN⟩ := key
  have hv' : (adc_hp_filter ⟨y, v⟩ y).1 = v := hv
  have hvi : isI32 v := by rw [← hv']; exact adc_hp_filter_isI32 _ _
  rw [hp_settled_step hy hvi] at hv'
  exact ⟨N, v, ⟨by omega, by omega⟩, hN⟩

/-- Once the low-pass output is constant, the cascade output follows the settled high-pass
recurrence. -/
theorem cascade_hold_out_settled (x y : Int) (N : Nat)
    (hN : ∀ n, N ≤ n → lp_hold_out x n lp_init = y) (k : Nat) :
    cascade_hold_out x (N + k)
      = (fun z => (adc_hp_filter ⟨y, z⟩ y).1)^[k] (cascade_hold_out x N) := by
  induction k with
  | zero => rfl
  | succ k ih =>
    rw [Function.iterate_succ_apply', ← ih]
    show cascade_hold_out x (N + k + 1) = _
    rw [cascade_hold_out_succ, hN (N + k) (by omega), hN (N + k + 1) (by omega)]

/-! ## Sign of the residual -/

/-- Exact cascade step on a state whose low-pass part holds the sample `x`, when every term
of the high-pass step fits in 32 bits. -/
theorem cascade_exact {x r w : Int} (hx : isU8 x) (hr : 0 ≤ r ∧ r ≤ 16777216)
    (hw : -1000000000 ≤ w ∧ w ≤ 1000000000) :
    cascade (⟨x, r⟩, ⟨r, w⟩) x =
      (w * 65279 / 65536 - r * 205481 / 65536
          + (4952 * x + r * 60583 / 65536) * 205481 / 65536,
        (⟨x, 4952 * x + r * 60583 / 65536⟩,
         ⟨4952 * x + r * 60583 / 65536,
          w * 65279 / 65536 - r * 205481 / 65536
            + (4952 * x + r * 60583 / 65536) * 205481 / 65536⟩)) := by
  have hx' := (isU8_iff x).1 hx
  have hr32 : isI32 r := by rw [isI32_iff]; omega
  have hw32 : isI32 w := by rw [isI32_iff]; omega
  have e1 : (adc_lp_filter ⟨x, r⟩ x).1 = 4952 * x + r * 60583 / 65536 :=
    lp_settled_step hx hr32
  have hy32 : isI32 (4952 * x + r * 60583 / 65536) := by rw [isI32_iff]; omega
  have e2 := adc_hp_filter_eq hr32 hw32 hy32
  have t2 : isI32 (asr (r * HPF_B1) 16) := by
    rw [isI32_iff, asr_16]; unfold HPF_B1; omega
  have t3 : isI32 (asr ((4952 * x + r * 60583 / 65536) * HPF_B0) 16) := by
    rw [isI32_iff, asr_16]; unfold HPF_B0; omega
  have t : isI32 (asr (w * HPF_A1) 16 - asr (r * HPF_B1) 16
      + asr ((4952 * x + r * 60583 / 65536) * HPF_B0) 16) := by
    rw [isI32_iff]; simp only [asr_16]; unfold HPF_A1 HPF_B1 HPF_B0; omega
  rw [toI32_of_isI32 t2, toI32_of_isI32 t3, toI32_of_isI32 t] at e2
  unfold cascade
  simp only [adc_lp_filter_snd, e1, e2, asr_16]
  rfl

theorem lp_init_eq : lp_init = ⟨88, 5767168⟩ := by decide

theorem hp_init_eq : hp_init = ⟨5767168, 0⟩ := by decide

/-- First cascade step from the initial statics. -/
theorem cascade_hold_one {x : Int} (hx : isU8 x) :
    cascade_hold x 1 =
      (⟨x, 2476 * x + 5549192⟩,
       ⟨2476 * x + 5549192, (2476 * x + 5549192) * 205481 / 65536 - 18082328⟩) := by
  have hx' := (isU8_iff x).1 hx
  have e1 : adc_lp_filter ⟨88, 5767168⟩ x
      = (2476 * x + 5549192, ⟨x, 2476 * x + 5549192⟩) := by
    rw [adc_lp_filter_eq (by decide) (by decide) hx, asr_16]
    simp only [LPF_B0, LPF_B1, LPF_A1]
    norm_num
    omega
  have hy32 : isI32 (2476 * x + 5549192) := by rw [isI32_iff]; omega
  have e2 := adc_hp_filter_eq (s := 5767168) (r := 0) (by decide) (by decide) hy32
  have t2 : isI32 (asr (5767168 * HPF_B1) 16) := by decide
  have t3 : isI32 (asr ((2476 * x + 5549192) * HPF_B0) 16) := by
    rw [isI32_iff, asr_16]; unfold HPF_B0; omega
  have t : isI32 (asr (0 * HPF_A1) 16 - asr (5767168 * HPF_B1) 16
      + asr ((2476 * x + 5549192) * HPF_B0) 16) := by
    rw [isI32_iff]; simp only [asr_16]; unfold HPF_A1 HPF_B1 HPF_B0; omega
  rw [toI32_of_isI32 t2, toI32_of_isI32 t3, toI32_of_isI32 t] at e2
  show (cascade (lp_init, hp_init) x).2 = _
  unfold cascade
  simp only [lp_init_eq, hp_init_eq, e1, e2, asr_16]
  unfold HPF_A1 HPF_B1 HPF_B0
  norm_num
  omega

theorem fallInv_first {x : Int} (hx : isU8 x) (h : x ≤ 88) : FallInv x (cascade_hold x 1) := by
  have hx' := (isU8_iff x).1 hx
  rw [cascade_hold_one hx]
  unfold FallInv
  refine ⟨rfl, ?_, ?_, ?_, rfl, ?_, ?_⟩ <;> simp only <;> omega

theorem fallInv_step {x : Int} (hx : isU8 x) (p : LpState × HpState) (h : FallInv x p) :
    FallInv x (cascade p x).2 := by
  have hx' := (isU8_iff x).1 hx
  obtain ⟨⟨s, r⟩, ⟨u, w⟩⟩ := p
  obtain ⟨h1, h2, h3, h4, h5, h6, h7⟩ := h
  simp only at h1 h2 h3 h4 h5 h6 h7
  subst s
  subst u
  rw [cascade_exact hx ⟨h2, by omega⟩ ⟨h6, by omega⟩]
  unfold FallInv
  refine ⟨rfl, ?_, ?_, ?_, rfl, ?_, ?_⟩ <;> simp only <;> omega

theorem fallInv_all {x : Int} (hx : isU8 x) (h : x ≤ 88) (n : Nat) :
    FallInv x (cascade_hold x (n + 1)) := by
  induction n with
  | zero => exact fallInv_first hx h
  | succ n ih => exact fallInv_step hx _ ih

theorem riseInv_first {x : Int} (hx : isU8 x) (h : 89 ≤ x) : RiseInv x (cascade_hold x 1) := by
  have hx' := (isU8_iff x).1 hx
  rw [cascade_hold_one hx]
  unfold RiseInv
  refine ⟨rfl, ?_, ?_, ?_, rfl, ?_, ?_⟩ <;> simp only <;> omega

theorem riseInv_step {x : Int} (hx : isU8 x) (p : LpState × HpState) (h : RiseInv x p) :
    RiseInv x (cascade p x).2 := by
  have hx' := (isU8_iff x).1 hx
  obtain ⟨⟨s, r⟩, ⟨u, w⟩⟩ := p
  obtain ⟨h1, h2, h3, h4, h5, h6, h7⟩ := h
  simp only at h1 h2 h3 h4 h5 h6 h7
  subst s
  subst u
  rw [cascade_exact hx ⟨by omega, h3⟩ ⟨by omega, h7⟩]
  unfold RiseInv
  refine ⟨rfl, ?_, ?_, ?_, rfl, ?_, ?_⟩ <;> simp only <;> omega

theorem riseInv_all {x : Int} (hx : isU8 x) (h : 89 ≤ x) (n : Nat) :
    RiseInv x (cascade_hold x (n + 1)) := by
  induction n with
  | zero => exact riseInv_first hx h
  | succ n ih => exact riseInv_step hx _ ih

/-- On a held sample at or below the rest reading 0x58 every cascade output is negative. -/
theorem cascade_hold_out_neg {x : Int} (hx : isU8 x) (h : x ≤ 88) (n : Nat) :
    cascade_hold_out x n < 0 := by
  have hi := fallInv_all hx h n
  rw [FallInv, cascade_hold_snd] at hi
  exact hi.2.2.2.2.2.2

/-- On a held sample above the rest reading 0x58 no cascade output is negative. -/
theorem cascade_hold_out_nonneg {x : Int} (hx : isU8 x) (h : 89 ≤ x) (n : Nat) :
    0 ≤ cascade_hold_out x n := by
  have hi := riseInv_all hx h n
  rw [RiseInv, cascade_hold_snd] at hi
  exact hi.2.2.2.2.2.1

/-- C6 (amended). Drift rejection: for every 8-bit sample value x, starting from the
initial filter state and feeding x on every step through adc_lp_filter and then
adc_hp_filter, the high-pass output converges to a constant residual v with
-255 <= v <= 0: there is a step N after which the cascade output is v on every further
step.  The residual is zero for every x above the rest reading 0x58 and negative for every
x up to 0x58. -/
theorem C6_drift_rejection (x : Int) (hx : isU8 x) :
    ∃ N v, (∀ n, N ≤ n → cascade_hold_out x n = v) ∧ (-255 ≤ v ∧ v ≤ 0) ∧
      (0x59 ≤ x → v = 0) ∧ (x ≤ 0x58 → v < 0) := by
  obtain ⟨N1, y, hy, hfix⟩ := lp_hold_out_settles x lp_init hx
  have hyi : isI32 y := by
    rw [← hfix]; exact adc_lp_filter_isI32 _ _
  obtain ⟨N2, v, hv, hN2⟩ :=
    hp_settles hyi (cascade_hold_out x N1) (cascade_hold_out_isI32 x N1)
  have hall : ∀ n, N1 + N2 ≤ n → cascade_hold_out x n = v := by
    intro n hn
    obtain ⟨k, rfl⟩ : ∃ k, n = N1 + k := ⟨n - N1, by omega⟩
    rw [cascade_hold_out_settled x y N1 hy k]
    exact hN2 k (by omega)
  have hlast := hall (N1 + N2) (le_refl _)
  refine ⟨N1 + N2, v, hall, hv, ?_, ?_⟩
  · intro h
    have h0 := cascade_hold_out_nonneg hx h (N1 + N2)
    rw [hlast] at h0
    omega
  · intro h
    have h0 := cascade_hold_out_neg hx h (N1 + N2)
    rw [hlast] at h0
    exact h0

/-- Witness of C6 (amended) at the sample 0x60. -/
theorem C6_drift_rejection_witness :
    ∃ N v, (∀ n, N ≤ n → cascade_hold_out 0x60 n = v) ∧ (-255 ≤ v ∧ v ≤ 0) ∧
      ((0x59 : Int) ≤ 0x60 → v = 0) ∧ ((0x60 : Int) ≤ 0x58 → v < 0) :=
  C6_drift_rejection 0x60 (by decide)

/-- C6 fails as stated at its own example: with the sample held at the rest reading 0x58
from the initial filter state, the cascade output is negative on every step (the first
output is -276), so it is not 0 from any step on. -/
theorem C6_drift_rejection_counterexample :
    isU8 0x58 ∧ cascade_hold_out 0x58 0 = -276 ∧
    ¬ ∃ N, ∀ n, N ≤ n → cascade_hold_out 0x58 n = 0 := by
  refine ⟨by decide, by decide, ?_⟩
  rintro ⟨N, hN⟩
  have h := @cascade_hold_out_neg 0x58 (by decide) (by decide) N
  rw [hN N (le_refl N)] at h
  exact lt_irrefl 0 h

/-! ## Initial state -/

/-- C7. Initial statics: the low-pass filter starts with last_sample 0x58 and last_result
0x00580000, the high-pass filter with last_sample 0x00580000 and last_result 0, and the
velocity integrator with accumulator 0 and last value 0; the main loop is entered with
these statics. -/
theorem C7_initial_state :
    lp_init.last_sample = 0x58 ∧ lp_init.last_result = 0x00580000 ∧
    lp_init.last_result = 0x58 * 2 ^ 16 ∧
    hp_init.last_sample = 0x00580000 ∧ hp_init.last_result = 0 ∧
    vel_init.current_velocity = 0 ∧ vel_init.last_accel = 0 ∧
    main_init.lp = lp_init ∧ main_init.hp = hp_init ∧ main_init.vel = vel_init := by
  decide

/-! ## Bit macros -/

theorem and_bit_shift (x y : Nat) : (x &&& (1 <<< y)) >>> y = (x.testBit y).toNat := by
  apply Nat.eq_of_testBit_eq
  intro i
  rw [Nat.testBit_shiftRight, Nat.testBit_and, Nat.one_shiftLeft, Nat.testBit_two_pow]
  cases i with
  | zero => cases h : x.testBit y <;> simp [h]
  | succ j => cases h : x.testBit y <;> simp [h, Nat.testBit_succ]

theorem READ_eq (x y : Nat) : READ x y = if x.testBit y then TRUE else FALSE := by
  unfold READ
  rw [and_bit_shift]
  cases x.testBit y <;> simp [FALSE, TRUE]

theorem testBit_SET (x y j : Nat) : (SET x y).testBit j = (x.testBit j || decide (y = j)) := by
  unfold SET
  rw [Nat.testBit_or, Nat.one_shiftLeft, Nat.testBit_two_pow]

theorem SET_lt (x y w : Nat) (hx : x < 2 ^ w) (hy : y < w) : SET x y < 2 ^ w := by
  unfold SET
  apply Nat.or_lt_two_pow hx
  rw [Nat.one_shiftLeft]
  exact Nat.pow_lt_pow_right (by decide) hy

/-! ## Main loop -/

theorem dispatch_events_events (c : Copy) (inp : Inputs) (st : MainState) :
    (dispatch_events c inp st).1.events = 0 := rfl

theorem main_loop_body_events (c : Copy) (inp : Inputs) (st : MainState) :
    (main_loop_body c inp st).1.events = 0 := rfl

theorem main_run_snoc (c : Copy) (inps : List Inputs) (inp : Inputs) :
    main_run c (inps ++ [inp]) = (main_loop_body c inp (main_run c inps)).1 := by
  unfold main_run
  rw [List.foldl_append]
  rfl

theorem main_run_events (c : Copy) (inps : List Inputs) : (main_run c inps).events = 0 := by
  induction inps using List.reverseRecOn with
  | nil => rfl
  | append_singleton l a _ => rw [main_run_snoc]; exact main_loop_body_events c a _

theorem testBit_mod_32 (n k : Nat) : (n % 2 ^ 32).testBit k = (decide (k < 32) && n.testBit k) :=
  Nat.testBit_mod_two_pow n 32 k

/-- Bits of the event word seen by the handlers when the pass started with an empty word:
each bit stands for something that happened in this pass. -/
theorem gather_events_bits (inp : Inputs) (st : MainState) (h : st.events = 0) (k : Nat) :
    (gather_events inp st).1.events.testBit k = true ↔
    ((k = EVENT_READ_ADC_Y ∧ TRUE = READ inp.TIFR1 0) ∨
     (k = EVENT_DECIMATE ∧ TRUE = READ inp.TIFR1 0 ∧
        (st.ticks + 1) % 2 ^ 32 ∈ decimate_labels) ∨
     (k = EVENT_500MS ∧ TRUE = READ inp.TIFR1 0 ∧ PERIOD_HB_LED = (st.ticks + 1) % 2 ^ 32) ∨
     (k = EVENT_PUSHBUTTON ∧ TRUE = NOT (READ inp.PINC 4))) := by
  simp only [gather_events, poll_timer, poll_pushbutton]
  by_cases ho : TRUE = READ inp.TIFR1 0 <;> by_cases hb : TRUE = NOT (READ inp.PINC 4) <;>
    by_cases hd : (st.ticks + 1) % 2 ^ 32 ∈ decimate_labels <;>
    by_cases hl : PERIOD_HB_LED = (st.ticks + 1) % 2 ^ 32 <;>
    (first | simp only [if_pos ho] | simp only [if_neg ho]) <;>
    (first | simp only [if_pos hb] | simp only [if_neg hb]) <;>
    (try first | simp only [if_pos hl] | simp only [if_neg hl]) <;>
    (try first | simp only [if_pos hd] | simp only [if_neg hd]) <;>
    (first | simp only [eq_true ho] | simp only [eq_false ho]) <;>
    (first | simp only [eq_true hb] | simp only [eq_false hb]) <;>
    (first | simp only [eq_true hl] | simp only [eq_false hl]) <;>
    (first | simp only [eq_true hd] | simp only [eq_false hd]) <;>
    simp only [h, testBit_mod_32, testBit_SET, Nat.zero_testBit, Bool.false_or,
      Bool.and_eq_true, Bool.or_eq_true, decide_eq_true_eq, Bool.false_eq_true,
      EVENT_READ_ADC_Y, EVENT_DECIMATE, EVENT_500MS, EVENT_PUSHBUTTON,
      and_true, and_false, or_false, false_or] <;>
    omega

theorem READ_eq_TRUE (x y : Nat) : TRUE = READ x y ↔ x.testBit y = true := by
  rw [READ_eq]
  cases x.testBit y <;> simp [TRUE, FALSE]

/-- The sample-ready bit seen by the handlers is the timer-overflow flag of this pass. -/
theorem gather_events_read_adc (inp : Inputs) (st : MainState) (h : st.events = 0) :
    TRUE = READ (gather_events inp st).1.events EVENT_READ_ADC_Y ↔ TRUE = READ inp.TIFR1 0 := by
  rw [READ_eq_TRUE, gather_events_bits inp st h]
  simp only [EVENT_READ_ADC_Y, EVENT_DECIMATE, EVENT_500MS, EVENT_PUSHBUTTON]
  constructor
  · rintro (⟨_, h1⟩ | ⟨h1, _⟩ | ⟨h1, _⟩ | ⟨h1, _⟩)
    · exact h1
    · exact absurd h1 (by decide)
    · exact absurd h1 (by decide)
    · exact absurd h1 (by decide)
  · intro h1
    exact Or.inl ⟨trivial, h1⟩

theorem gather_events_frame (inp : Inputs) (st : MainState) :
    (gather_events inp st).1.lp = st.lp ∧ (gather_events inp st).1.hp = st.hp ∧
    (gather_events inp st).1.vel = st.vel ∧
    (gather_events inp st).1.filtered_y_axis = st.filtered_y_axis ∧
    (gather_events inp st).1.velocity = st.velocity ∧
    (gather_events inp st).1.PORTD = st.PORTD ∧
    (gather_events inp st).2.filter Action.isSampling = [] := by
  simp only [gather_events, poll_timer, poll_pushbutton]
  split_ifs <;> simp [Action.isSampling]

theorem gather_events_ticks (inp : Inputs) (st : MainState) (h : ¬ TRUE = READ inp.TIFR1 0) :
    (gather_events inp st).1.ticks = st.ticks := by
  simp only [gather_events, poll_timer, poll_pushbutton, if_neg h]
  split_ifs <;> rfl

theorem handle_decimate_frame (c : Copy) (st : MainState) :
    (handle_decimate c st).1.ticks = st.ticks ∧ (handle_decimate c st).1.lp = st.lp ∧
    (handle_decimate c st).1.hp = st.hp ∧
    (handle_decimate c st).1.filtered_y_axis = st.filtered_y_axis ∧
    (handle_decimate c st).1.PORTD = st.PORTD ∧
    (handle_decimate c st).2.filter Action.isSampling = [] := by
  unfold handle_decimate
  cases c <;> split_ifs <;> exact ⟨rfl, rfl, rfl, rfl, rfl, rfl⟩

theorem handle_forward_motion_frame (st : MainState) :
    (handle_forward_motion st).1.ticks = st.ticks ∧ (handle_forward_motion st).1.lp = st.lp ∧
    (handle_forward_motion st).1.hp = st.hp ∧ (handle_forward_motion st).1.vel = st.vel ∧
    (handle_forward_motion st).1.filtered_y_axis = st.filtered_y_axis ∧
    (handle_forward_motion st).1.velocity = st.velocity ∧
    (handle_forward_motion st).1.events = st.events ∧
    (handle_forward_motion st).2.filter Action.isSampling = [] := by
  unfold handle_forward_motion
  split_ifs <;> exact ⟨rfl, rfl, rfl, rfl, rfl, rfl, rfl, rfl⟩

theorem handle_halt_frame (st : MainState) :
    (handle_halt st).1.ticks = st.ticks ∧ (handle_halt st).1.lp = st.lp ∧
    (handle_halt st).1.hp = st.hp ∧ (handle_halt st).1.vel = st.vel ∧
    (handle_halt st).1.filtered_y_axis = st.filtered_y_axis ∧
    (handle_halt st).1.velocity = st.velocity ∧
    (handle_halt st).1.events = st.events ∧
    (handle_halt st).2.filter Action.isSampling = [] := by
  unfold handle_halt
  split_ifs <;> exact ⟨rfl, rfl, rfl, rfl, rfl, rfl, rfl, rfl⟩

theorem handle_read_adc_ticks (c : Copy) (inp : Inputs) (st : MainState) :
    (handle_read_adc c inp st).1.ticks = st.ticks := by
  unfold handle_read_adc
  split_ifs <;> rfl

theorem dispatch_events_frame (c : Copy) (inp : Inputs) (st : MainState) :
    (dispatch_events c inp st).1.ticks = st.ticks ∧
    (dispatch_events c inp st).1.lp = (handle_read_adc c inp st).1.lp ∧
    (dispatch_events c inp st).1.hp = (handle_read_adc c inp st).1.hp ∧
    (dispatch_events c inp st).1.filtered_y_axis
      = (handle_read_adc c inp st).1.filtered_y_axis ∧
    (dispatch_events c inp st).2.filter Action.isSampling
      = (handle_read_adc c inp st).2.filter Action.isSampling := by
  have hh := handle_halt_frame
    (handle_forward_motion (handle_decimate c (handle_read_adc c inp st).1).1).1
  have hf := handle_forward_motion_frame (handle_decimate c (handle_read_adc c inp st).1).1
  have hd := handle_decimate_frame c (handle_read_adc c inp st).1
  obtain ⟨hh1, hh2, hh3, _, hh5, _, _, hh8⟩ := hh
  obtain ⟨hf1, hf2, hf3, _, hf5, _, _, hf8⟩ := hf
  obtain ⟨hd1, hd2, hd3, hd4, _, hd6⟩ := hd
  refine ⟨?_, ?_, ?_, ?_, ?_⟩
  · show (handle_halt _).1.ticks = _
    rw [hh1, hf1, hd1, handle_read_adc_ticks]
  · show (handle_halt _).1.lp = _
    rw [hh2, hf2, hd2]
  · show (handle_halt _).1.hp = _
    rw [hh3, hf3, hd3]
  · show (handle_halt _).1.filtered_y_axis = _
    rw [hh5, hf5, hd4]
  · show List.filter _ (_ ++ _ ++ _ ++ _) = _
    rw [List.filter_append, List.filter_append, List.filter_append, hh8, hf8, hd6]
    simp only [List.append_nil]

/-- Effect of one pass that starts with an empty event word on the sampling path. -/
theorem main_loop_body_sampling (c : Copy) (inp : Inputs) (st : MainState)
    (h : st.events = 0) :
    (TRUE = READ inp.TIFR1 0 →
      (main_loop_body c inp st).1.lp = (adc_lp_filter st.lp (toU8 inp.ADCH)).2 ∧
      (main_loop_body c inp st).1.hp
        = (adc_hp_filter st.hp (adc_lp_filter st.lp (toU8 inp.ADCH)).1).2 ∧
      (main_loop_body c inp st).1.filtered_y_axis
        = (adc_hp_filter st.hp (adc_lp_filter st.lp (toU8 inp.ADCH)).1).1 ∧
      (main_loop_body c inp st).2.filter Action.isSampling
        = [Action.adc_convert (toU8 inp.ADCH), Action.lp_call (toU8 inp.ADCH),
           Action.hp_call (adc_lp_filter st.lp (toU8 inp.ADCH)).1]) ∧
    (¬ TRUE = READ inp.TIFR1 0 →
      (main_loop_body c inp st).1.ticks = st.ticks ∧
      (main_loop_body c inp st).1.lp = st.lp ∧
      (main_loop_body c inp st).1.hp = st.hp ∧
      (main_loop_body c inp st).1.filtered_y_axis = st.filtered_y_axis ∧
      (main_loop_body c inp st).2.filter Action.isSampling = []) := by
  obtain ⟨d1, d2, d3, d4, d5⟩ := dispatch_events_frame c inp (gather_events inp st).1
  obtain ⟨g1, g2, _, g4, _, _, g7⟩ := gather_events_frame inp st
  have hr := gather_events_read_adc inp st h
  have e1 : (main_loop_body c inp st).1 = (dispatch_events c inp (gather_events inp st).1).1 := rfl
  have e2 : (main_loop_body c inp st).2
      = (gather_events inp st).2 ++ (dispatch_events c inp (gather_events inp st).1).2 := rfl
  rw [e1, e2, List.filter_append, g7, List.nil_append, d1, d2, d3, d4, d5]
  constructor
  · intro ho
    have hc := hr.2 ho
    unfold handle_read_adc
    rw [if_pos hc, g1, g2]
    cases c <;> exact ⟨rfl, rfl, rfl, rfl⟩
  · intro ho
    have hc : ¬ TRUE = READ (gather_events inp st).1.events EVENT_READ_ADC_Y :=
      fun hx => ho (hr.1 hx)
    unfold handle_read_adc
    rw [if_neg hc]
    exact ⟨gather_events_ticks inp st ho, g1, g2, g4, rfl⟩

/-- C8. The event set is per-cycle: for every state and every combination of inputs the
event word is 0 at the end of a main-loop pass, so every pass of a run starts with the
empty word, and each event bit seen by the handlers of a pass was set in that same pass:
by the timer overflow of the pass (sample-ready, decimation, 500 ms) or by its button
reading. -/
theorem C8_events_per_cycle (c : Copy) :
    (∀ (inp : Inputs) (st : MainState), (main_loop_body c inp st).1.events = 0) ∧
    (∀ inps : List Inputs, (main_run c inps).events = 0) ∧
    (∀ (inps : List Inputs) (inp : Inputs) (k : Nat),
      (gather_events inp (main_run c inps)).1.events.testBit k = true ↔
      ((k = EVENT_READ_ADC_Y ∧ TRUE = READ inp.TIFR1 0) ∨
       (k = EVENT_DECIMATE ∧ TRUE = READ inp.TIFR1 0 ∧
          ((main_run c inps).ticks + 1) % 2 ^ 32 ∈ decimate_labels) ∨
       (k = EVENT_500MS ∧ TRUE = READ inp.TIFR1 0 ∧
          PERIOD_HB_LED = ((main_run c inps).ticks + 1) % 2 ^ 32) ∨
       (k = EVENT_PUSHBUTTON ∧ TRUE = NOT (READ inp.PINC 4)))) :=
  ⟨fun inp st => main_loop_body_events c inp st, fun inps => main_run_events c inps,
    fun inps inp k => gather_events_bits inp (main_run c inps) (main_run_events c inps) k⟩

/-- C9. At-most-one-per-kind event encoding: for every event word e and every event kind k
(0..5), setting k twice gives the same word as setting it once, READ of k is then TRUE, the
bits of all other kinds read as before, and a 32-bit word stays a 32-bit word. -/
theorem C9_event_set (e k : Nat) (hk : k ≤ 5) :
    SET (SET e k) k = SET e k ∧
    READ (SET e k) k = TRUE ∧
    (∀ j, j ≠ k → READ (SET e k) j = READ e j) ∧
    (∀ j, j ≠ k → (SET e k).testBit j = e.testBit j) ∧
    (e < 2 ^ 32 → SET e k < 2 ^ 32) := by
  refine ⟨?_, ?_, ?_, ?_, ?_⟩
  · unfold SET
    rw [Nat.or_assoc, Nat.or_self]
  · rw [READ_eq, testBit_SET]
    simp
  · intro j hj
    rw [READ_eq, READ_eq, testBit_SET]
    have : decide (k = j) = false := by simpa using (Ne.symm hj)
    rw [this, Bool.or_false]
  · intro j hj
    rw [testBit_SET]
    have : decide (k = j) = false := by simpa using (Ne.symm hj)
    rw [this, Bool.or_false]
  · intro he
    exact SET_lt e k 32 he (by omega)

/-- Witness of C9: the push-button event on a word that holds two other events. -/
theorem C9_event_set_witness :
    SET (SET 0x0A EVENT_PUSHBUTTON) EVENT_PUSHBUTTON = SET 0x0A EVENT_PUSHBUTTON ∧
    READ (SET 0x0A EVENT_PUSHBUTTON) EVENT_PUSHBUTTON = TRUE ∧
    (∀ j, j ≠ EVENT_PUSHBUTTON → READ (SET 0x0A EVENT_PUSHBUTTON) j = READ 0x0A j) ∧
    (∀ j, j ≠ EVENT_PUSHBUTTON →
      (SET 0x0A EVENT_PUSHBUTTON).testBit j = (0x0A : Nat).testBit j) ∧
    (0x0A < 2 ^ 32 → SET 0x0A EVENT_PUSHBUTTON < 2 ^ 32) :=
  C9_event_set 0x0A EVENT_PUSHBUTTON (by decide)

/-- C10. One sample and one filter step per tick: in every pass of a run of the main loop
the sample-ready event is seen by the handlers if and only if the timer-overflow flag was
set in that pass; with overflow the ADC is read once and adc_lp_filter followed by
adc_hp_filter are each run exactly once (on the reading and on the low-pass output);
without overflow the tick count, both filter states and the filtered signal are unchanged
and neither the ADC nor a filter is used. -/
theorem C10_one_sample_per_tick (c : Copy) (inps : List Inputs) (inp : Inputs) :
    (TRUE = READ (gather_events inp (main_run c inps)).1.events EVENT_READ_ADC_Y ↔
      TRUE = READ inp.TIFR1 0) ∧
    (TRUE = READ inp.TIFR1 0 →
      (main_loop_body c inp (main_run c inps)).1.lp
        = (adc_lp_filter (main_run c inps).lp (toU8 inp.ADCH)).2 ∧
      (main_loop_body c inp (main_run c inps)).1.hp
        = (adc_hp_filter (main_run c inps).hp
            (adc_lp_filter (main_run c inps).lp (toU8 inp.ADCH)).1).2 ∧
      (main_loop_body c inp (main_run c inps)).1.filtered_y_axis
        = (adc_hp_filter (main_run c inps).hp
            (adc_lp_filter (main_run c inps).lp (toU8 inp.ADCH)).1).1 ∧
      (main_loop_body c inp (main_run c inps)).2.filter Action.isSampling
        = [Action.adc_convert (toU8 inp.ADCH), Action.lp_call (toU8 inp.ADCH),
           Action.hp_call (adc_lp_filter (main_run c inps).lp (toU8 inp.ADCH)).1]) ∧
    (¬ TRUE = READ inp.TIFR1 0 →
      (main_loop_body c inp (main_run c inps)).1.ticks = (main_run c inps).ticks ∧
      (main_loop_body c inp (main_run c inps)).1.lp = (main_run c inps).lp ∧
      (main_loop_body c inp (main_run c inps)).1.hp = (main_run c inps).hp ∧
      (main_loop_body c inp (main_run c inps)).1.filtered_y_axis
        = (main_run c inps).filtered_y_axis ∧
      (main_loop_body c inp (main_run c inps)).2.filter Action.isSampling = []) :=
  ⟨gather_events_read_adc inp (main_run c inps) (main_run_events c inps),
    main_loop_body_sampling c inp (main_run c inps) (main_run_events c inps)⟩

/-- Witness of C10: a pass with overflow after a pass without, and a pass without overflow
after a pass with. -/
theorem C10_one_sample_per_tick_witness :
    (main_loop_body Copy.proj ⟨0x01, 0x10, 0x60⟩ (main_run Copy.proj [⟨0x00, 0x10, 0x58⟩])).1.lp
        = ⟨0x60, 5786888⟩ ∧
    (main_loop_body Copy.proj ⟨0x00, 0x10, 0x60⟩ (main_run Copy.proj [⟨0x01, 0x10, 0x58⟩])).1.lp
        = ⟨0x58, 5767080⟩ :=
  ⟨((C10_one_sample_per_tick Copy.proj [⟨0x00, 0x10, 0x58⟩] ⟨0x01, 0x10, 0x60⟩).2.1
      (by decide)).1.trans (by decide),
   ((C10_one_sample_per_tick Copy.proj [⟨0x01, 0x10, 0x58⟩] ⟨0x00, 0x10, 0x60⟩).2.2
      (by decide)).2.1.trans (by decide)⟩

/-! ## Concrete runs over sequences -/

set_option maxRecDepth 8192 in
/-- Two samples through the cascade from the initial statics. -/
theorem cascade_run_two_samples :
    cascade_run (lp_init, hp_init) [0x60, 0x62]
      = ([61829, 196374], (⟨0x62, 5829877⟩, ⟨5829877, 196374⟩)) := by decide

/-- Passes without overflow are not counted and take no sample; the reading is cut to eight
bits. -/
theorem samples_three_passes :
    overflows [⟨0x01, 0x00, 0x60⟩, ⟨0x00, 0x00, 0x61⟩, ⟨0x01, 0x00, 0x162⟩] = 2 ∧
    samples [⟨0x01, 0x00, 0x60⟩, ⟨0x00, 0x00, 0x61⟩, ⟨0x01, 0x00, 0x162⟩] = [0x60, 0x62] := by
  decide

/-- Light registers at loop entry and the one light they command on. -/
theorem main_setup_eval :
    main_setup = { DDRB := 0x00, DDRD := 0xC0, TCCR0A := 0xA3, TCCR0B := 0x01, OCR0A := 0x80,
                   OCR0B := 0x01, TCCR1A := 0x00, TCCR1B := 0x04 } ∧
    lights_on main_setup = [Light.Yellow] := by decide

/-! ## Tick counter and decimation -/

theorem main_run_from_fst (c : Copy) (st : MainState) (inps : List Inputs) :
    (main_run_from c st inps).1
      = inps.foldl (fun st inp => (main_loop_body c inp st).1) st := by
  induction inps generalizing st with
  | nil => rfl
  | cons inp inps ih =>
    show (main_run_from c (main_loop_body c inp st).1 inps).1 = _
    rw [ih]
    rfl

theorem main_run_from_init (c : Copy) (inps : List Inputs) :
    (main_run_from c main_init inps).1 = main_run c inps :=
  main_run_from_fst c main_init inps

theorem main_run_from_append (c : Copy) (st : MainState) (xs ys : List Inputs) :
    main_run_from c st (xs ++ ys) =
      ((main_run_from c (main_run_from c st xs).1 ys).1,
        (main_run_from c st xs).2 ++ (main_run_from c (main_run_from c st xs).1 ys).2) := by
  induction xs generalizing st with
  | nil => rfl
  | cons x xs ih =>
    show ((main_run_from c (main_loop_body c x st).1 (xs ++ ys)).1,
      (main_loop_body c x st).2 ++ (main_run_from c (main_loop_body c x st).1 (xs ++ ys)).2) = _
    rw [ih]
    simp only [main_run_from, List.append_assoc]

theorem main_trace_snoc (c : Copy) (inps : List Inputs) (inp : Inputs) :
    main_trace c (inps ++ [inp])
      = main_trace c inps ++ (main_loop_body c inp (main_run c inps)).2 := by
  unfold main_trace
  rw [main_run_from_append, main_run_from_init]
  simp only [main_run_from, List.append_nil]

theorem overflows_snoc (inps : List Inputs) (inp : Inputs) :
    overflows (inps ++ [inp]) = overflows inps + (if TRUE = READ inp.TIFR1 0 then 1 else 0) := by
  unfold overflows
  rw [List.countP_append]
  by_cases h : TRUE = READ inp.TIFR1 0 <;> simp [List.countP_cons, overflowed, h]

/-- Tick counter after one pass. -/
theorem main_loop_body_ticks (c : Copy) (inp : Inputs) (st : MainState) :
    (main_loop_body c inp st).1.ticks =
      if TRUE = READ inp.TIFR1 0 then
        (if PERIOD_HB_LED = (st.ticks + 1) % 2 ^ 32 then 0 else (st.ticks + 1) % 2 ^ 32)
      else st.ticks := by
  have e : (main_loop_body c inp st).1 = (dispatch_events c inp (gather_events inp st).1).1 := rfl
  rw [e, (dispatch_events_frame c inp (gather_events inp st).1).1]
  simp only [gather_events, poll_timer, poll_pushbutton]
  split_ifs <;> rfl

/-- In a run from loop entry the tick counter is the number of overflows modulo 400. -/
theorem main_run_ticks (c : Copy) (inps : List Inputs) :
    (main_run c inps).ticks = overflows inps % 400 := by
  induction inps using List.reverseRecOn with
  | nil => rfl
  | append_singleton l a ih =>
    rw [main_run_snoc, main_loop_body_ticks, overflows_snoc, ih]
    unfold PERIOD_HB_LED
    split_ifs <;> omega

theorem gather_events_velocity (inp : Inputs) (st : MainState) :
    (gather_events inp st).2.filter Action.isVelocityCall = [] := by
  simp only [gather_events, poll_timer, poll_pushbutton]
  split_ifs <;> simp [Action.isVelocityCall]

theorem handle_read_adc_velocity (c : Copy) (inp : Inputs) (st : MainState) :
    (handle_read_adc c inp st).1.vel = st.vel ∧
    (handle_read_adc c inp st).1.events = st.events ∧
    (handle_read_adc c inp st).2.filter Action.isVelocityCall = [] := by
  unfold handle_read_adc
  cases c <;> split_ifs <;> exact ⟨rfl, rfl, rfl⟩

theorem handle_forward_motion_velocity (st : MainState) :
    (handle_forward_motion st).2.filter Action.isVelocityCall = [] := by
  unfold handle_forward_motion
  split_ifs <;> rfl

theorem handle_halt_velocity (st : MainState) :
    (handle_halt st).2.filter Action.isVelocityCall = [] := by
  unfold handle_halt
  split_ifs <;> rfl

/-- What the decimation handler does, by the decimation bit of the event word. -/
theorem handle_decimate_velocity (c : Copy) (st : MainState) :
    (TRUE = READ st.events EVENT_DECIMATE →
      (handle_decimate c st).1.vel = (compute_velocity st.vel st.filtered_y_axis).2 ∧
      (handle_decimate c st).1.velocity = (compute_velocity st.vel st.filtered_y_axis).1 ∧
      (handle_decimate c st).2.filter Action.isVelocityCall
        = [Action.velocity_call st.filtered_y_axis]) ∧
    (¬ TRUE = READ st.events EVENT_DECIMATE →
      (handle_decimate c st).1.vel = st.vel ∧
      (handle_decimate c st).1.velocity = st.velocity ∧
      (handle_decimate c st).2.filter Action.isVelocityCall = []) := by
  unfold handle_decimate
  constructor
  · intro h
    rw [if_pos h]
    cases c <;> exact ⟨rfl, rfl, rfl⟩
  · intro h
    rw [if_neg h]
    exact ⟨rfl, rfl, rfl⟩

/-- Velocity integrator in one pass, by the decimation bit seen by the handlers. -/
theorem main_loop_body_velocity (c : Copy) (inp : Inputs) (st : MainState) :
    (TRUE = READ (gather_events inp st).1.events EVENT_DECIMATE →
      (main_loop_body c inp st).1.vel
        = (compute_velocity st.vel (main_loop_body c inp st).1.filtered_y_axis).2 ∧
      (main_loop_body c inp st).1.velocity
        = (compute_velocity st.vel (main_loop_body c inp st).1.filtered_y_axis).1 ∧
      (main_loop_body c inp st).2.filter Action.isVelocityCall
        = [Action.velocity_call (main_loop_body c inp st).1.filtered_y_axis]) ∧
    (¬ TRUE = READ (gather_events inp st).1.events EVENT_DECIMATE →
      (main_loop_body c inp st).1.vel = st.vel ∧
      (main_loop_body c inp st).1.velocity = st.velocity ∧
      (main_loop_body c inp st).2.filter Action.isVelocityCall = []) := by
  obtain ⟨_, _, g3, _, g5, _, _⟩ := gather_events_frame inp st
  obtain ⟨a1, a2, a3⟩ := handle_read_adc_velocity c inp (gather_events inp st).1
  obtain ⟨hd1, hd2⟩ := handle_decimate_velocity c (handle_read_adc c inp (gather_events inp st).1).1
  obtain ⟨_, _, _, f4, _, f6, _, _⟩ :=
    handle_forward_motion_frame (handle_decimate c (handle_read_adc c inp (gather_events inp st).1).1).1
  obtain ⟨_, _, _, h4, h5, h6, _, _⟩ :=
    handle_halt_frame (handle_forward_motion
      (handle_decimate c (handle_read_adc c inp (gather_events inp st).1).1).1).1
  obtain ⟨_, _, _, h5', _, _⟩ :=
    handle_decimate_frame c (handle_read_adc c inp (gather_events inp st).1).1
  have f5 := (handle_forward_motion_frame
    (handle_decimate c (handle_read_adc c inp (gather_events inp st).1).1).1).2.2.2.2.1
  have ev : (main_loop_body c inp st).1.vel
      = (handle_decimate c (handle_read_adc c inp (gather_events inp st).1).1).1.vel := by
    show (handle_halt _).1.vel = _
    rw [h4, f4]
  have evel : (main_loop_body c inp st).1.velocity
      = (handle_decimate c (handle_read_adc c inp (gather_events inp st).1).1).1.velocity := by
    show (handle_halt _).1.velocity = _
    rw [h6, f6]
  have efil : (main_loop_body c inp st).1.filtered_y_axis
      = (handle_read_adc c inp (gather_events inp st).1).1.filtered_y_axis := by
    show (handle_halt _).1.filtered_y_axis = _
    rw [h5, f5, h5']
  have etr : (main_loop_body c inp st).2.filter Action.isVelocityCall
      = (handle_decimate c (handle_read_adc c inp (gather_events inp st).1).1).2.filter
          Action.isVelocityCall := by
    show List.filter _ (_ ++ (_ ++ _ ++ _ ++ _)) = _
    rw [List.filter_append, List.filter_append, List.filter_append, List.filter_append,
      gather_events_velocity, a3, handle_forward_motion_velocity, handle_halt_velocity]
    simp only [List.nil_append, List.append_nil]
  rw [ev, evel, efil, etr]
  rw [a2] at hd1 hd2
  rw [a1, g3] at hd1
  rw [a1, g3] at hd2
  have g5' : (handle_read_adc c inp (gather_events inp st).1).1.velocity = st.velocity := by
    rw [← g5]
    unfold handle_read_adc
    split_ifs <;> rfl
  rw [g5'] at hd2
  exact ⟨hd1, hd2⟩

/-- The decimation bit seen by the handlers in a pass of a run. -/
theorem gather_events_decimate (c : Copy) (inps : List Inputs) (inp : Inputs) :
    TRUE = READ (gather_events inp (main_run c inps)).1.events EVENT_DECIMATE ↔
      (TRUE = READ inp.TIFR1 0 ∧ (overflows inps + 1) % 40 = 0) := by
  rw [READ_eq_TRUE, gather_events_bits inp _ (main_run_events c inps), main_run_ticks]
  have hlt : overflows inps % 400 < 400 := Nat.mod_lt _ (by decide)
  have hmod : (overflows inps % 400 + 1) % 2 ^ 32 = overflows inps % 400 + 1 :=
    Nat.mod_eq_of_lt (by norm_num; omega)
  have hmem : (overflows inps % 400 + 1) % 2 ^ 32 ∈ decimate_labels ↔
      (overflows inps + 1) % 40 = 0 := by
    rw [hmod]
    simp only [decimate_labels, List.mem_cons, List.mem_singleton, List.not_mem_nil, or_false]
    omega
  rw [hmem]
  simp only [EVENT_READ_ADC_Y, EVENT_DECIMATE, EVENT_500MS, EVENT_PUSHBUTTON]
  constructor
  · rintro (⟨h1, _⟩ | ⟨_, h1, h2⟩ | ⟨h1, _⟩ | ⟨h1, _⟩)
    · exact absurd h1 (by decide)
    · exact ⟨h1, h2⟩
    · exact absurd h1 (by decide)
    · exact absurd h1 (by decide)
  · rintro ⟨h1, h2⟩
    exact Or.inr (Or.inl ⟨trivial, h1, h2⟩)

/-- Number of `compute_velocity` calls of a run from loop entry: one per 40 overflows. -/
theorem main_trace_velocity_calls (c : Copy) (inps : List Inputs) :
    (main_trace c inps).countP Action.isVelocityCall = overflows inps / 40 := by
  induction inps using List.reverseRecOn with
  | nil => rfl
  | append_singleton l a ih =>
    rw [main_trace_snoc, List.countP_append, ih, overflows_snoc, List.countP_eq_length_filter]
    obtain ⟨h1, h2⟩ := main_loop_body_velocity c a (main_run c l)
    have hd := gather_events_decimate c l a
    by_cases hc : TRUE = READ (gather_events a (main_run c l)).1.events EVENT_DECIMATE
    · rw [(h1 hc).2.2]
      obtain ⟨ho, hm⟩ := hd.1 hc
      rw [if_pos ho]
      simp only [List.length_singleton]
      omega
    · rw [(h2 hc).2.2]
      simp only [List.length_nil]
      by_cases ho : TRUE = READ a.TIFR1 0
      · rw [if_pos ho]
        have hm : ¬ (overflows l + 1) % 40 = 0 := fun hm => hc (hd.2 ⟨ho, hm⟩)
        omega
      · rw [if_neg ho]
        omega

/-- C11. Decimation tick: in every pass of a run that starts at loop entry with ticks = 0,
the decimation event is seen by the handlers if and only if the timer overflowed in that
pass and that overflow is a 40th one (overflow number 40, 80, 120, ... of the run); then the
tick count is one of 40, 80, ..., 400 and compute_velocity is called exactly once, on the
filtered signal of the pass; otherwise it is not called and its statics are unchanged.  Over
a whole run compute_velocity is called once per 40 overflows, so ten times per 400. -/
theorem C11_decimation_tick (c : Copy) (inps : List Inputs) (inp : Inputs) :
    (TRUE = READ (gather_events inp (main_run c inps)).1.events EVENT_DECIMATE ↔
      (TRUE = READ inp.TIFR1 0 ∧ (overflows inps + 1) % 40 = 0)) ∧
    (TRUE = READ (gather_events inp (main_run c inps)).1.events EVENT_DECIMATE →
      (main_run c inps).ticks + 1 ∈ decimate_ticks ∧
      (main_loop_body c inp (main_run c inps)).1.vel
        = (compute_velocity (main_run c inps).vel
            (main_loop_body c inp (main_run c inps)).1.filtered_y_axis).2 ∧
      (main_loop_body c inp (main_run c inps)).2.filter Action.isVelocityCall
        = [Action.velocity_call (main_loop_body c inp (main_run c inps)).1.filtered_y_axis]) ∧
    (¬ TRUE = READ (gather_events inp (main_run c inps)).1.events EVENT_DECIMATE →
      (main_loop_body c inp (main_run c inps)).1.vel = (main_run c inps).vel ∧
      (main_loop_body c inp (main_run c inps)).2.filter Action.isVelocityCall = []) ∧
    (main_trace c inps).countP Action.isVelocityCall = overflows inps / 40 ∧
    (main_trace c (inps ++ [inp])).countP Action.isVelocityCall
      = overflows (inps ++ [inp]) / 40 := by
  obtain ⟨h1, h2⟩ := main_loop_body_velocity c inp (main_run c inps)
  have hd := gather_events_decimate c inps inp
  refine ⟨hd, ?_, ?_, main_trace_velocity_calls c inps, main_trace_velocity_calls c _⟩
  · intro hc
    refine ⟨?_, (h1 hc).1, (h1 hc).2.2⟩
    obtain ⟨_, hm⟩ := hd.1 hc
    rw [main_run_ticks]
    simp only [decimate_ticks, List.mem_cons, List.mem_singleton, List.not_mem_nil, or_false]
    omega
  · intro hc
    exact ⟨(h2 hc).1, (h2 hc).2.2⟩

/-- Witness of C11: the 40th overflow of a run in the `proj` copy calls compute_velocity
once, the 41st does not. -/
theorem C11_decimation_tick_witness :
    (main_loop_body Copy.proj ⟨0x01, 0x10, 0x58⟩
        (main_run Copy.proj (List.replicate 39 ⟨0x01, 0x10, 0x58⟩))).2.filter
          Action.isVelocityCall
      = [Action.velocity_call (main_loop_body Copy.proj ⟨0x01, 0x10, 0x58⟩
          (main_run Copy.proj (List.replicate 39 ⟨0x01, 0x10, 0x58⟩))).1.filtered_y_axis] ∧
    (main_loop_body Copy.proj ⟨0x01, 0x10, 0x58⟩
        (main_run Copy.proj (List.replicate 40 ⟨0x01, 0x10, 0x58⟩))).2.filter
          Action.isVelocityCall = [] := by
  constructor
  · refine ((C11_decimation_tick Copy.proj (List.replicate 39 ⟨0x01, 0x10, 0x58⟩)
      ⟨0x01, 0x10, 0x58⟩).2.1 ?_).2.2
    exact (C11_decimation_tick Copy.proj (List.replicate 39 ⟨0x01, 0x10, 0x58⟩)
      ⟨0x01, 0x10, 0x58⟩).1.2 ⟨by decide, by decide⟩
  · refine ((C11_decimation_tick Copy.proj (List.replicate 40 ⟨0x01, 0x10, 0x58⟩)
      ⟨0x01, 0x10, 0x58⟩).2.2.1 ?_).2
    intro h
    exact absurd ((C11_decimation_tick Copy.proj (List.replicate 40 ⟨0x01, 0x10, 0x58⟩)
      ⟨0x01, 0x10, 0x58⟩).1.1 h).2 (by decide)

/-! ## Light outputs -/

/-- C12, evaluation of the code: after the initialisation part of `main` the Red pin (port D
pin 5) is an input and the Yellow pin (port D pin 6) is an output on which timer 0, running,
puts out a PWM signal of compare value 0x80; Yellow is the only light commanded on. -/
theorem C12_startup_lights :
    main_setup.DDRD = 0xC0 ∧ main_setup.DDRD.testBit 5 = false ∧
    main_setup.DDRD.testBit 6 = true ∧ main_setup.DDRB = 0 ∧
    main_setup.TCCR0A = 0xA3 ∧ main_setup.TCCR0B = 0x01 ∧ main_setup.OCR0A = 0x80 ∧
    light_commanded main_setup Light.Red = false ∧
    light_commanded main_setup Light.Yellow = true ∧
    light_commanded main_setup Light.Green = false ∧
    lights_on main_setup ≠ [Light.Red] := by
  decide

/-- The forward-motion handler when its event bit is set: it executes `SET(PORTD,7)` and
nothing else, so the state changes in PORTD only and the one hardware write goes to PORTD.
No pass of the source sets that bit. -/
theorem handle_forward_motion_taken (st : MainState)
    (h : TRUE = READ st.events EVENT_FORWARD_MOTION) :
    handle_forward_motion st
      = ({ st with PORTD := (SET st.PORTD 7) % 2 ^ 8 },
          [Action.portd_write ((SET st.PORTD 7) % 2 ^ 8)]) ∧
    (handle_forward_motion st).2.map Action.target = [some Reg.PORTD] := by
  unfold handle_forward_motion
  rw [if_pos h]
  exact ⟨rfl, rfl⟩

/-! ## Lights of the machine -/

theorem SET_mod_idem (p y : Nat) : (SET ((SET p y) % 2 ^ 8) y) % 2 ^ 8 = (SET p y) % 2 ^ 8 := by
  apply Nat.eq_of_testBit_eq
  intro i
  simp only [Nat.testBit_mod_two_pow, testBit_SET]
  cases decide (i < 8) <;> cases p.testBit i <;> cases decide (y = i) <;> rfl

theorem testBit_CLEAR (x y j : Nat) :
    (CLEAR x y).testBit j = (x.testBit j && (decide (j < 16) != decide (y = j))) := by
  unfold CLEAR
  have e : (0xFFFF : Nat) = 2 ^ 16 - 1 := by norm_num
  rw [Nat.testBit_and, Nat.testBit_xor, Nat.one_shiftLeft, Nat.testBit_two_pow, e,
    Nat.testBit_two_pow_sub_one]

theorem CLEAR_mod_idem (p y : Nat) :
    (CLEAR ((CLEAR p y) % 2 ^ 8) y) % 2 ^ 8 = (CLEAR p y) % 2 ^ 8 := by
  apply Nat.eq_of_testBit_eq
  intro i
  simp only [Nat.testBit_mod_two_pow, testBit_CLEAR]
  cases decide (i < 8) <;> cases p.testBit i <;> cases decide (i < 16) <;>
    cases decide (y = i) <;> rfl

/-- C16. Duplicate events are no-ops: handling a forward-motion event in the state that
handling a forward-motion event produced, or a halt event in the state that handling a halt
event produced, leaves every piece of state unchanged, and the only hardware write it makes
stores in PORTD the value PORTD already has; the handlers are total functions of the state
and its event word. -/
theorem C16_duplicate_events (c : Copy) (inp : Inputs) (st : MainState) :
    (handle_forward_motion (handle_forward_motion st).1).1 = (handle_forward_motion st).1 ∧
    (∀ a ∈ (handle_forward_motion (handle_forward_motion st).1).2,
      a = Action.portd_write (handle_forward_motion st).1.PORTD) ∧
    (handle_halt (handle_halt st).1).1 = (handle_halt st).1 ∧
    (∀ a ∈ (handle_halt (handle_halt st).1).2,
      a = Action.portd_write (handle_halt st).1.PORTD) ∧
    (∃ r, handle_forward_motion st = r) ∧ (∃ r, handle_halt st = r) ∧
    (∃ r, dispatch_events c inp st = r) := by
  refine ⟨?_, ?_, ?_, ?_, ⟨_, rfl⟩, ⟨_, rfl⟩, ⟨_, rfl⟩⟩
  · unfold handle_forward_motion
    by_cases h : TRUE = READ st.events EVENT_FORWARD_MOTION
    · simp only [if_pos h, SET_mod_idem]
    · simp only [if_neg h]
  · intro a ha
    unfold handle_forward_motion at ha ⊢
    by_cases h : TRUE = READ st.events EVENT_FORWARD_MOTION
    · simp only [if_pos h, SET_mod_idem, List.mem_singleton] at ha ⊢
      exact ha
    · simp only [if_neg h, List.not_mem_nil] at ha
  · unfold handle_halt
    by_cases h : TRUE = READ st.events EVENT_HALT
    · simp only [if_pos h, CLEAR_mod_idem]
    · simp only [if_neg h]
  · intro a ha
    unfold handle_halt at ha ⊢
    by_cases h : TRUE = READ st.events EVENT_HALT
    · simp only [if_pos h, CLEAR_mod_idem, List.mem_singleton] at ha ⊢
      exact ha
    · simp only [if_neg h, List.not_mem_nil] at ha

/-! ## Determinism of the filter cascade -/

theorem cascade_run_length (st : LpState × HpState) (xs : List Int) :
    (cascade_run st xs).1.length = xs.length := by
  induction xs generalizing st with
  | nil => rfl
  | cons x xs ih =>
    show ((cascade st x).1 :: (cascade_run (cascade st x).2 xs).1).length = _
    rw [List.length_cons, ih, List.length_cons]

theorem cascade_run_append (st : LpState × HpState) (xs ys : List Int) :
    cascade_run st (xs ++ ys) =
      ((cascade_run st xs).1 ++ (cascade_run (cascade_run st xs).2 ys).1,
        (cascade_run (cascade_run st xs).2 ys).2) := by
  induction xs generalizing st with
  | nil => rfl
  | cons x xs ih =>
    show ((cascade st x).1 :: (cascade_run (cascade st x).2 (xs ++ ys)).1,
      (cascade_run (cascade st x).2 (xs ++ ys)).2) = _
    rw [ih]
    rfl

theorem cascade_run_fst_lp (st : LpState × HpState) (xs : List Int) :
    (cascade_run st xs).2.1 = (lp_run st.1 xs).2 := by
  induction xs generalizing st with
  | nil => rfl
  | cons x xs ih =>
    show (cascade_run (cascade st x).2 xs).2.1 = (lp_run (adc_lp_filter st.1 x).2 xs).2
    rw [ih]
    rfl

theorem samples_snoc (inps : List Inputs) (inp : Inputs) :
    samples (inps ++ [inp])
      = samples inps ++ (if TRUE = READ inp.TIFR1 0 then [toU8 (inp.ADCH : Int)] else []) := by
  unfold samples
  rw [List.filter_append, List.map_append]
  by_cases h : TRUE = READ inp.TIFR1 0 <;> simp [overflowed, h]

/-- In a run of the main loop the statics of both filters and the filtered signal are those
of the cascade run on the ADC readings of the run. -/
theorem main_run_cascade (c : Copy) (inps : List Inputs) :
    ((main_run c inps).lp, (main_run c inps).hp)
      = (cascade_run (lp_init, hp_init) (samples inps)).2 ∧
    (main_run c inps).filtered_y_axis
      = (cascade_run (lp_init, hp_init) (samples inps)).1.getLastD 0 := by
  induction inps using List.reverseRecOn with
  | nil => exact ⟨rfl, rfl⟩
  | append_singleton l a ih =>
    obtain ⟨ih1, ih2⟩ := ih
    obtain ⟨h1, h2⟩ := main_loop_body_sampling c a (main_run c l) (main_run_events c l)
    rw [main_run_snoc, samples_snoc, cascade_run_append, ← ih1]
    by_cases ho : TRUE = READ a.TIFR1 0
    · obtain ⟨e1, e2, e3, _⟩ := h1 ho
      rw [if_pos ho, e1, e2, e3]
      refine ⟨rfl, ?_⟩
      show _ = List.getLastD (_ ++ [_]) 0
      rw [List.getLastD_concat]
      rfl
    · obtain ⟨_, e1, e2, e3, _⟩ := h2 ho
      rw [if_neg ho, e1, e2, e3]
      refine ⟨rfl, ?_⟩
      show _ = List.getLastD (_ ++ []) 0
      rw [List.append_nil]
      exact ih2

/-- C17. Filter determinism: the cascade run from the initial filter state gives one output
per sample, its first n outputs on a longer sequence are its outputs on the first n samples
(the output at step n depends only on the initial state and samples 1..n), and two runs of
the main loop, of either source copy and with any button readings and idle passes, that
convert the same sequence of ADC samples end with identical filter states and filtered
signal, which are those of the cascade run on that sequence. -/
theorem C17_filter_determinism (xs ys : List Int) (c1 c2 : Copy) (inps1 inps2 : List Inputs)
    (h : samples inps1 = samples inps2) :
    (cascade_run (lp_init, hp_init) xs).1.length = xs.length ∧
    (cascade_run (lp_init, hp_init) (xs ++ ys)).1.take xs.length
      = (cascade_run (lp_init, hp_init) xs).1 ∧
    ((main_run c1 inps1).lp, (main_run c1 inps1).hp)
      = (cascade_run (lp_init, hp_init) (samples inps1)).2 ∧
    (main_run c1 inps1).lp = (main_run c2 inps2).lp ∧
    (main_run c1 inps1).hp = (main_run c2 inps2).hp ∧
    (main_run c1 inps1).filtered_y_axis = (main_run c2 inps2).filtered_y_axis := by
  obtain ⟨a1, a2⟩ := main_run_cascade c1 inps1
  obtain ⟨b1, b2⟩ := main_run_cascade c2 inps2
  rw [← h] at b1 b2
  have e := a1.trans b1.symm
  rw [Prod.ext_iff] at e
  refine ⟨cascade_run_length _ xs, ?_, a1, e.1, e.2, a2.trans b2.symm⟩
  rw [cascade_run_append, ← cascade_run_length (lp_init, hp_init) xs, List.take_left]

/-- Witness of C17: a `proj` run of two sampling passes and a `studio` run of the same two
samples with another button reading and an idle pass in between. -/
theorem C17_filter_determinism_witness :
    (main_run Copy.proj [⟨0x01, 0x10, 0x60⟩, ⟨0x01, 0x10, 0x62⟩]).hp
      = (main_run Copy.studio
          [⟨0x01, 0x00, 0x60⟩, ⟨0x00, 0x00, 0x33⟩, ⟨0x01, 0x00, 0x62⟩]).hp :=
  (C17_filter_determinism [] [] Copy.proj Copy.studio
    [⟨0x01, 0x10, 0x60⟩, ⟨0x01, 0x10, 0x62⟩]
    [⟨0x01, 0x00, 0x60⟩, ⟨0x00, 0x00, 0x33⟩, ⟨0x01, 0x00, 0x62⟩] (by decide)).2.2.2.2.1

/-! ## Tick period -/

/-- C18 fails as stated: 1.25 ms are 10000 cycles of the 8 MHz clock, the timer advances
once per 256 cycles, and from the reload value 0xFFD9 it overflows after 39 counts, that is
after 9984 cycles; no whole number of timer counts makes 10000 cycles. -/
theorem C18_tick_period_counterexample :
    F_CPU * 125 / 100000 = 10000 ∧
    timer1_counts TIMER1_PERIOD = 39 ∧
    tick_period_cycles = 9984 ∧
    tick_period_cycles ≠ F_CPU * 125 / 100000 ∧
    ∀ n : Nat, timer1_prescale * n ≠ F_CPU * 125 / 100000 := by
  refine ⟨by decide, by decide, by decide, by decide, ?_⟩
  intro n
  unfold timer1_prescale F_CPU
  omega

/-- C18 (amended). Tick period: with the 8 MHz clock divided by 256 one timer count is
32 us, and with the timer reloaded with TIMER1_PERIOD = 0xFFD9 the next overflow comes 39
counts = 9984 cycles = 1248 us after the reload (just over 801 Hz, 16 cycles short of
1.25 ms), so that 400 tick periods are 499200 us and 40 tick periods are 49920 us. -/
theorem C18_tick_period :
    TIMER1_PERIOD = 0xFFD9 ∧
    timer1_prescale * 1000000 / F_CPU = 32 ∧
    timer1_counts TIMER1_PERIOD = 39 ∧
    tick_period_cycles = 9984 ∧
    tick_period_cycles * 1000000 / F_CPU = 1248 ∧
    tick_period_cycles * 1000000 = 1248 * F_CPU ∧
    F_CPU / tick_period_cycles = 801 ∧
    tick_period_cycles + 16 = F_CPU * 125 / 100000 ∧
    PERIOD_HB_LED * tick_period_cycles * 1000000 = 499200 * F_CPU ∧
    PERIOD_DECIMATE * tick_period_cycles * 1000000 = 49920 * F_CPU := by
  decide

/-! ## Coefficients -/

/-- C19. Coefficient encoding: each fixed-point filter constant is the real coefficient
documented next to it in the source, scaled by 2^16 and truncated:
LPF_B0 = LPF_B1 = floor(0.037786 * 65536) = 0x09AC, LPF_A1 = floor(0.92443 * 65536) = 0xECA7,
HPF_B0 = HPF_B1 = floor(3.1354 * 65536) = 0x322A9, HPF_A1 = floor(0.99608 * 65536) = 0xFEFF;
both poles are below one (LPF_A1 < 2^16 and HPF_A1 < 2^16). -/
theorem C19_coefficient_encoding :
    (LPF_B0 = Int.floor ((0.037786 : ℚ) * 65536) ∧ LPF_B0 = 0x09AC) ∧
    (LPF_B1 = Int.floor ((0.037786 : ℚ) * 65536) ∧ LPF_B1 = 0x09AC) ∧
    (LPF_A1 = Int.floor ((0.92443 : ℚ) * 65536) ∧ LPF_A1 = 0xECA7) ∧
    (HPF_B0 = Int.floor ((3.1354 : ℚ) * 65536) ∧ HPF_B0 = 0x322A9) ∧
    (HPF_B1 = Int.floor ((3.1354 : ℚ) * 65536) ∧ HPF_B1 = 0x322A9) ∧
    (HPF_A1 = Int.floor ((0.99608 : ℚ) * 65536) ∧ HPF_A1 = 0xFEFF) ∧
    LPF_A1 < 2 ^ 16 ∧ HPF_A1 < 2 ^ 16 := by
  refine ⟨⟨?_, rfl⟩, ⟨?_, rfl⟩, ⟨?_, rfl⟩, ⟨?_, rfl⟩, ⟨?_, rfl⟩, ⟨?_, rfl⟩, by decide, by decide⟩
  · symm; rw [Int.floor_eq_iff]; unfold LPF_B0; norm_num
  · symm; rw [Int.floor_eq_iff]; unfold LPF_B1; norm_num
  · symm; rw [Int.floor_eq_iff]; unfold LPF_A1; norm_num
  · symm; rw [Int.floor_eq_iff]; unfold HPF_B0; norm_num
  · symm; rw [Int.floor_eq_iff]; unfold HPF_B1; norm_num
  · symm; rw [Int.floor_eq_iff]; unfold HPF_A1; norm_num

/-! ## Range of the low-pass output -/

/-- One low-pass call keeps the result in 0 .. 255 * 2^16. -/
theorem lp_range_step {s r x : Int} (hs : isU8 s) (hr : 0 ≤ r ∧ r ≤ 0x00FF0000)
    (hx : isU8 x) :
    0 ≤ (adc_lp_filter ⟨s, r⟩ x).1 ∧ (adc_lp_filter ⟨s, r⟩ x).1 ≤ 0x00FF0000 := by
  have hs' := (isU8_iff s).1 hs
  have hx' := (isU8_iff x).1 hx
  have hr32 : isI32 r := by rw [isI32_iff]; omega
  rw [adc_lp_filter_eq hs hr32 hx, asr_16]
  unfold LPF_B0 LPF_B1 LPF_A1
  constructor <;> omega

theorem lp_range_run (xs : List Int) (hxs : ∀ x ∈ xs, isU8 x) (st : LpState)
    (hs : isU8 st.last_sample) (hr : 0 ≤ st.last_result ∧ st.last_result ≤ 0x00FF0000) :
    (∀ y ∈ (lp_run st xs).1, 0 ≤ y ∧ y ≤ 0x00FF0000) ∧
    isU8 (lp_run st xs).2.last_sample ∧
    0 ≤ (lp_run st xs).2.last_result ∧ (lp_run st xs).2.last_result ≤ 0x00FF0000 := by
  induction xs generalizing st with
  | nil =>
    refine ⟨?_, hs, hr.1, hr.2⟩
    intro y hy
    exact absurd hy (List.not_mem_nil y)
  | cons x xs ih =>
    have hx : isU8 x := hxs x (List.mem_cons_self x xs)
    obtain ⟨s, r⟩ := st
    have hstep := lp_range_step hs hr hx
    have hnext := ih (fun y hy => hxs y (List.mem_cons_of_mem x hy))
      (adc_lp_filter ⟨s, r⟩ x).2 hx hstep
    refine ⟨?_, hnext.2⟩
    intro y hy
    have hy' : y ∈ (adc_lp_filter ⟨s, r⟩ x).1 :: (lp_run (adc_lp_filter ⟨s, r⟩ x).2 xs).1 := hy
    rcases List.mem_cons.1 hy' with h | h
    · rw [h]; exact hstep
    · exact hnext.1 y h

theorem samples_isU8 (inps : List Inputs) : ∀ x ∈ samples inps, isU8 x := by
  intro x hx
  unfold samples at hx
  obtain ⟨inp, _, rfl⟩ := List.mem_map.1 hx
  rw [isU8_iff]
  unfold toU8
  norm_num
  omega

/-- C20. Low-pass range invariant: starting from the initial state, for every sequence of
8-bit samples every value returned by adc_lp_filter and the stored last_result satisfy
0 <= last_result <= 255 * 2^16 (0x00FF0000), and the integer part (value >> 16) of every
output is an 8-bit reading, never negative; the same bounds hold for the low-pass statics
in every state the main loop reaches. -/
theorem C20_lp_range (xs : List Int) (hxs : ∀ x ∈ xs, isU8 x) :
    (∀ y ∈ (lp_run lp_init xs).1, 0 ≤ y ∧ y ≤ 255 * 2 ^ 16 ∧ isU8 (asr y 16)) ∧
    (0 ≤ (lp_run lp_init xs).2.last_result ∧
      (lp_run lp_init xs).2.last_result ≤ 255 * 2 ^ 16 ∧
      (lp_run lp_init xs).2.last_result ≤ 0x00FF0000) ∧
    (∀ (c : Copy) (inps : List Inputs),
      0 ≤ (main_run c inps).lp.last_result ∧
      (main_run c inps).lp.last_result ≤ 255 * 2 ^ 16) := by
  have h0s : isU8 lp_init.last_sample := by decide
  have h0r : 0 ≤ lp_init.last_result ∧ lp_init.last_result ≤ 0x00FF0000 := by decide
  obtain ⟨h1, _, h3, h4⟩ := lp_range_run xs hxs lp_init h0s h0r
  refine ⟨?_, ⟨h3, by omega, h4⟩, ?_⟩
  · intro y hy
    obtain ⟨ha, hb⟩ := h1 y hy
    refine ⟨ha, by omega, ?_⟩
    rw [isU8_iff, asr_16]
    omega
  · intro c inps
    have e := (main_run_cascade c inps).1
    have e1 : (main_run c inps).lp = (lp_run lp_init (samples inps)).2 := by
      have := congrArg Prod.fst e
      rw [cascade_run_fst_lp] at this
      exact this
    obtain ⟨_, _, k3, k4⟩ := lp_range_run (samples inps) (samples_isU8 inps) lp_init h0s h0r
    rw [e1]
    exact ⟨k3, by omega⟩

/-- Witness of C20: the largest sample three times. -/
theorem C20_lp_range_witness :
    (∀ y ∈ (lp_run lp_init [255, 255, 255]).1, 0 ≤ y ∧ y ≤ 255 * 2 ^ 16 ∧ isU8 (asr y 16)) ∧
    (0 ≤ (lp_run lp_init [255, 255, 255]).2.last_result ∧
      (lp_run lp_init [255, 255, 255]).2.last_result ≤ 255 * 2 ^ 16 ∧
      (lp_run lp_init [255, 255, 255]).2.last_result ≤ 0x00FF0000) ∧
    (∀ (c : Copy) (inps : List Inputs),
      0 ≤ (main_run c inps).lp.last_result ∧
      (main_run c inps).lp.last_result ≤ 255 * 2 ^ 16) :=
  C20_lp_range [255, 255, 255] (by decide)

/-! ## Range of the high-pass output in the cascade -/

theorem cascInv_init : CascInv (lp_init, hp_init) := by
  unfold CascInv
  decide

/-- One cascade step on an 8-bit sample from a state in the invariant: no cast of the
high-pass call changes a value, the output is within the bounds, and the invariant holds
again. -/
theorem cascInv_step (p : LpState × HpState) (x : Int) (hp : CascInv p) (hx : isU8 x) :
    (isI64 (p.2.last_result * HPF_A1) ∧ isI64 (p.2.last_sample * HPF_B1) ∧
      isI64 ((adc_lp_filter p.1 x).1 * HPF_B0)) ∧
    (isI32 (hp_terms p.2 (adc_lp_filter p.1 x).1).1 ∧
      isI32 (hp_terms p.2 (adc_lp_filter p.1 x).1).2.1 ∧
      isI32 (hp_terms p.2 (adc_lp_filter p.1 x).1).2.2 ∧
      isI32 ((hp_terms p.2 (adc_lp_filter p.1 x).1).1
        - (hp_terms p.2 (adc_lp_filter p.1 x).1).2.1) ∧
      isI32 ((hp_terms p.2 (adc_lp_filter p.1 x).1).1
        - (hp_terms p.2 (adc_lp_filter p.1 x).1).2.1
        + (hp_terms p.2 (adc_lp_filter p.1 x).1).2.2)) ∧
    (cascade p x).1 = (hp_terms p.2 (adc_lp_filter p.1 x).1).1
        - (hp_terms p.2 (adc_lp_filter p.1 x).1).2.1
        + (hp_terms p.2 (adc_lp_filter p.1 x).1).2.2 ∧
    (-52397655 ≤ (cascade p x).1 ∧ (cascade p x).1 ≤ 52397654) ∧
    CascInv (cascade p x).2 := by
  obtain ⟨⟨s, r⟩, ⟨u, w⟩⟩ := p
  obtain ⟨h1, h2, h3, h4, h5, h6, h7⟩ := hp
  simp only at h1 h2 h3 h4 h5 h6 h7
  rw [asr_16] at h6 h7
  unfold HPF_B1 at h6 h7
  unfold HPF_B0 at h6
  have hs' := (isU8_iff s).1 h1
  have hx' := (isU8_iff x).1 hx
  have hr32 : isI32 r := by rw [isI32_iff]; omega
  have hu32 : isI32 u := by rw [isI32_iff]; omega
  have hw32 : isI32 w := by rw [isI32_iff]; omega
  have e1 : adc_lp_filter ⟨s, r⟩ x
      = (2476 * x + 2476 * s + r * 60583 / 65536,
          ⟨x, 2476 * x + 2476 * s + r * 60583 / 65536⟩) := by
    rw [adc_lp_filter_eq h1 hr32 hx, asr_16]
    simp only [LPF_B0, LPF_B1, LPF_A1]
    norm_num
    ring
  have hy0 : 0 ≤ 2476 * x + 2476 * s + r * 60583 / 65536 := by omega
  have hy1 : 2476 * x + 2476 * s + r * 60583 / 65536 < 16711680 := by omega
  have hy32 : isI32 (2476 * x + 2476 * s + r * 60583 / 65536) := by rw [isI32_iff]; omega
  have e2 := adc_hp_filter_eq hu32 hw32 hy32
  have t1 : isI32 (asr (w * HPF_A1) 16) := hp_term_r hw32
  have t2 : isI32 (asr (u * HPF_B1) 16) := by
    rw [isI32_iff, asr_16]; unfold HPF_B1; omega
  have t3 : isI32 (asr ((2476 * x + 2476 * s + r * 60583 / 65536) * HPF_B0) 16) := by
    rw [isI32_iff, asr_16]; unfold HPF_B0; omega
  have t12 : isI32 (asr (w * HPF_A1) 16 - asr (u * HPF_B1) 16) := by
    rw [isI32_iff]; simp only [asr_16]; unfold HPF_A1 HPF_B1; omega
  have t : isI32 (asr (w * HPF_A1) 16 - asr (u * HPF_B1) 16
      + asr ((2476 * x + 2476 * s + r * 60583 / 65536) * HPF_B0) 16) := by
    rw [isI32_iff]; simp only [asr_16]; unfold HPF_A1 HPF_B1 HPF_B0; omega
  rw [toI32_of_isI32 t2, toI32_of_isI32 t3, toI32_of_isI32 t] at e2
  have ec : cascade (⟨s, r⟩, ⟨u, w⟩) x
      = (asr (w * HPF_A1) 16 - asr (u * HPF_B1) 16
            + asr ((2476 * x + 2476 * s + r * 60583 / 65536) * HPF_B0) 16,
          (⟨x, 2476 * x + 2476 * s + r * 60583 / 65536⟩,
           ⟨2476 * x + 2476 * s + r * 60583 / 65536,
            asr (w * HPF_A1) 16 - asr (u * HPF_B1) 16
              + asr ((2476 * x + 2476 * s + r * 60583 / 65536) * HPF_B0) 16⟩)) := by
    unfold cascade
    simp only [e1, e2]
  simp only [ec, e1, hp_terms]
  refine ⟨⟨hp_prod hw32 (by unfold HPF_A1; omega), hp_prod hu32 (by unfold HPF_B1; omega),
    hp_prod hy32 (by unfold HPF_B0; omega)⟩, ⟨t1, t2, t3, t12, t⟩, trivial, ?_, ?_⟩
  · simp only [asr_16]
    unfold HPF_A1 HPF_B1 HPF_B0
    constructor <;> omega
  · unfold CascInv
    simp only [asr_16]
    unfold HPF_A1 HPF_B1 HPF_B0
    refine ⟨hx, ?_, ?_, ?_, ?_, ?_, ?_⟩ <;> omega

theorem cascInv_run (xs : List Int) (hxs : ∀ z ∈ xs, isU8 z) (st : LpState × HpState)
    (hst : CascInv st) :
    CascInv (cascade_run st xs).2 ∧
    ∀ y ∈ (cascade_run st xs).1, -52397655 ≤ y ∧ y ≤ 52397654 := by
  induction xs generalizing st with
  | nil =>
    refine ⟨hst, ?_⟩
    intro y hy
    exact absurd hy (List.not_mem_nil y)
  | cons x xs ih =>
    have hx : isU8 x := hxs x (List.mem_cons_self x xs)
    obtain ⟨_, _, _, hb, hinv⟩ := cascInv_step st x hst hx
    have hnext := ih (fun z hz => hxs z (List.mem_cons_of_mem x hz)) (cascade st x).2 hinv
    refine ⟨hnext.1, ?_⟩
    intro y hy
    have hy' : y ∈ (cascade st x).1 :: (cascade_run (cascade st x).2 xs).1 := hy
    rcases List.mem_cons.1 hy' with h | h
    · rw [h]; exact hb
    · exact hnext.2 y h

theorem cascInv_hp_bound (p : LpState × HpState) (hp : CascInv p) :
    -52397655 ≤ p.2.last_result ∧ p.2.last_result ≤ 52397654 := by
  obtain ⟨_, _, _, h4, h5, h6, h7⟩ := hp
  rw [asr_16] at h6 h7
  unfold HPF_B1 at h6 h7
  unfold HPF_B0 at h6
  constructor <;> omega

/-- In a run of the main loop the filtered signal is the stored high-pass result. -/
theorem main_run_filtered (c : Copy) (inps : List Inputs) :
    (main_run c inps).filtered_y_axis = (main_run c inps).hp.last_result := by
  induction inps using List.reverseRecOn with
  | nil => rfl
  | append_singleton l a ih =>
    obtain ⟨h1, h2⟩ := main_loop_body_sampling c a (main_run c l) (main_run_events c l)
    rw [main_run_snoc]
    by_cases ho : TRUE = READ a.TIFR1 0
    · obtain ⟨_, e2, e3, _⟩ := h1 ho
      rw [e2, e3]
      rfl
    · obtain ⟨_, _, e2, e3, _⟩ := h2 ho
      rw [e2, e3]
      exact ih

/-- C21. High-pass output bound in the cascade: starting from the initial state, after every
sequence of 8-bit samples and for every further 8-bit sample passed through adc_lp_filter
then adc_hp_filter, each product of adc_hp_filter fits in 64 bits, each of its three shifted
terms, the difference of the first two and the sum of the three fit in a signed 32-bit word,
so the value returned is the sum over unbounded integers, and it satisfies
-52397655 <= y <= 52397654, where 52397655 is 255 * HPF_B0; every output of a run and, in
every state the main loop reaches, the stored high-pass result and the filtered signal are
within the same bounds. -/
theorem C21_hp_bound (pre : List Int) (x : Int) (hpre : ∀ z ∈ pre, isU8 z) (hx : isU8 x) :
    (isI64 ((cascade_run (lp_init, hp_init) pre).2.2.last_result * HPF_A1) ∧
      isI64 ((cascade_run (lp_init, hp_init) pre).2.2.last_sample * HPF_B1) ∧
      isI64 ((adc_lp_filter (cascade_run (lp_init, hp_init) pre).2.1 x).1 * HPF_B0)) ∧
    (isI32 (hp_terms (cascade_run (lp_init, hp_init) pre).2.2
        (adc_lp_filter (cascade_run (lp_init, hp_init) pre).2.1 x).1).1 ∧
      isI32 (hp_terms (cascade_run (lp_init, hp_init) pre).2.2
        (adc_lp_filter (cascade_run (lp_init, hp_init) pre).2.1 x).1).2.1 ∧
      isI32 (hp_terms (cascade_run (lp_init, hp_init) pre).2.2
        (adc_lp_filter (cascade_run (lp_init, hp_init) pre).2.1 x).1).2.2 ∧
      isI32 ((hp_terms (cascade_run (lp_init, hp_init) pre).2.2
          (adc_lp_filter (cascade_run (lp_init, hp_init) pre).2.1 x).1).1
        - (hp_terms (cascade_run (lp_init, hp_init) pre).2.2
          (adc_lp_filter (cascade_run (lp_init, hp_init) pre).2.1 x).1).2.1) ∧
      isI32 ((hp_terms (cascade_run (lp_init, hp_init) pre).2.2
          (adc_lp_filter (cascade_run (lp_init, hp_init) pre).2.1 x).1).1
        - (hp_terms (cascade_run (lp_init, hp_init) pre).2.2
          (adc_lp_filter (cascade_run (lp_init, hp_init) pre).2.1 x).1).2.1
        + (hp_terms (cascade_run (lp_init, hp_init) pre).2.2
          (adc_lp_filter (cascade_run (lp_init, hp_init) pre).2.1 x).1).2.2)) ∧
    (cascade (cascade_run (lp_init, hp_init) pre).2 x).1
      = (hp_terms (cascade_run (lp_init, hp_init) pre).2.2
          (adc_lp_filter (cascade_run (lp_init, hp_init) pre).2.1 x).1).1
        - (hp_terms (cascade_run (lp_init, hp_init) pre).2.2
          (adc_lp_filter (cascade_run (lp_init, hp_init) pre).2.1 x).1).2.1
        + (hp_terms (cascade_run (lp_init, hp_init) pre).2.2
          (adc_lp_filter (cascade_run (lp_init, hp_init) pre).2.1 x).1).2.2 ∧
    (-52397655 ≤ (cascade (cascade_run (lp_init, hp_init) pre).2 x).1 ∧
      (cascade (cascade_run (lp_init, hp_init) pre).2 x).1 ≤ 52397654) ∧
    (∀ y ∈ (cascade_run (lp_init, hp_init) (pre ++ [x])).1, -52397655 ≤ y ∧ y ≤ 52397654) ∧
    (255 * HPF_B0 = 52397655) ∧
    (∀ (c : Copy) (inps : List Inputs),
      (-52397655 ≤ (main_run c inps).hp.last_result ∧
        (main_run c inps).hp.last_result ≤ 52397654) ∧
      (-52397655 ≤ (main_run c inps).filtered_y_axis ∧
        (main_run c inps).filtered_y_axis ≤ 52397654)) := by
  have hinv := (cascInv_run pre hpre (lp_init, hp_init) cascInv_init).1
  obtain ⟨s1, s2, s3, s4, _⟩ := cascInv_step _ x hinv hx
  have hall : ∀ z ∈ pre ++ [x], isU8 z := by
    intro z hz
    rcases List.mem_append.1 hz with h | h
    · exact hpre z h
    · rw [List.mem_singleton.1 h]; exact hx
  refine ⟨s1, s2, s3, s4, (cascInv_run _ hall (lp_init, hp_init) cascInv_init).2, by decide, ?_⟩
  intro c inps
  have e := (main_run_cascade c inps).1
  have hi := (cascInv_run (samples inps) (samples_isU8 inps) (lp_init, hp_init) cascInv_init).1
  rw [← e] at hi
  have hb := cascInv_hp_bound _ hi
  rw [main_run_filtered]
  exact ⟨hb, hb⟩

/-- Witness of C21: the sample 0 after three samples 255. -/
theorem C21_hp_bound_witness :
    -52397655 ≤ (cascade (cascade_run (lp_init, hp_init) [255, 255, 255]).2 0).1 ∧
    (cascade (cascade_run (lp_init, hp_init) [255, 255, 255]).2 0).1 ≤ 52397654 :=
  (C21_hp_bound [255, 255, 255] 0 (by decide) (by decide)).2.2.2.1

/-! ## High-pass decay on a constant input -/

theorem hp_hold_isI32 (s r : Int) (hr : isI32 r) (n : Nat) :
    isI32 ((fun z => (adc_hp_filter ⟨s, z⟩ s).1)^[n] r) := by
  induction n with
  | zero => exact hr
  | succ n ih =>
    rw [Function.iterate_succ_apply']
    exact adc_hp_filter_isI32 _ _

theorem hp_hold_nonneg {s : Int} (hs : isI32 s) (r : Int) (hr : isI32 r) (h0 : 0 ≤ r)
    (n : Nat) : 0 ≤ (fun z => (adc_hp_filter ⟨s, z⟩ s).1)^[n] r := by
  induction n with
  | zero => exact h0
  | succ n ih =>
    rw [Function.iterate_succ_apply']
    show 0 ≤ (adc_hp_filter ⟨s, _⟩ s).1
    rw [hp_settled_step hs (hp_hold_isI32 s r hr n)]
    omega

theorem hp_hold_neg {s : Int} (hs : isI32 s) (r : Int) (hr : isI32 r) (h0 : r < 0)
    (n : Nat) : (fun z => (adc_hp_filter ⟨s, z⟩ s).1)^[n] r < 0 := by
  induction n with
  | zero => exact h0
  | succ n ih =>
    rw [Function.iterate_succ_apply']
    show (adc_hp_filter ⟨s, _⟩ s).1 < 0
    rw [hp_settled_step hs (hp_hold_isI32 s r hr n)]
    omega

/-- C22. High-pass decay under a constant input: when adc_hp_filter receives an input equal
to its stored last_sample s, it returns (last_result * HPF_A1) >> 16 and keeps s; repeating
this, the magnitude of the output never increases, a non-negative output stays non-negative
and reaches exactly 0, a negative output stays negative and stops at a value in -255..-1,
and the fixed points are exactly the values in -255..0, so the residual offset is at most
255 units of 2^-16. -/
theorem C22_hp_decay (s r : Int) (hs : isI32 s) (hr : isI32 r) :
    (adc_hp_filter ⟨s, r⟩ s).1 = asr (r * HPF_A1) 16 ∧
    (adc_hp_filter ⟨s, r⟩ s).2 = ⟨s, asr (r * HPF_A1) 16⟩ ∧
    (∀ n, |(fun z => (adc_hp_filter ⟨s, z⟩ s).1)^[n + 1] r|
        ≤ |(fun z => (adc_hp_filter ⟨s, z⟩ s).1)^[n] r|) ∧
    (0 ≤ r → ∃ N, ∀ n, N ≤ n → (fun z => (adc_hp_filter ⟨s, z⟩ s).1)^[n] r = 0) ∧
    (r < 0 → ∃ N v, (-255 ≤ v ∧ v ≤ -1) ∧
      ∀ n, N ≤ n → (fun z => (adc_hp_filter ⟨s, z⟩ s).1)^[n] r = v) ∧
    (∀ v, isI32 v → ((adc_hp_filter ⟨s, v⟩ s).1 = v ↔ (-255 ≤ v ∧ v ≤ 0))) := by
  have e1 : (adc_hp_filter ⟨s, r⟩ s).1 = asr (r * HPF_A1) 16 := by
    rw [hp_settled_step hs hr, asr_16]; rfl
  refine ⟨e1, ?_, ?_, ?_, ?_, ?_⟩
  · have e2 : (adc_hp_filter ⟨s, r⟩ s).2 = ⟨s, (adc_hp_filter ⟨s, r⟩ s).1⟩ := rfl
    rw [e2, e1]
  · intro n
    rw [Function.iterate_succ_apply']
    show |(adc_hp_filter ⟨s, _⟩ s).1| ≤ _
    rw [hp_settled_step hs (hp_hold_isI32 s r hr n)]
    generalize (fun z => (adc_hp_filter ⟨s, z⟩ s).1)^[n] r = w
    rw [abs_le]
    constructor
    · rcases abs_cases w with ⟨e, _⟩ | ⟨e, _⟩ <;> rw [e] <;> omega
    · rcases abs_cases w with ⟨e, _⟩ | ⟨e, _⟩ <;> rw [e] <;> omega
  · intro h0
    obtain ⟨N, v, hv, hN⟩ := hp_settles hs r hr
    refine ⟨N, ?_⟩
    intro n hn
    have h1 := hp_hold_nonneg hs r hr h0 n
    rw [hN n hn] at h1 ⊢
    omega
  · intro h0
    obtain ⟨N, v, hv, hN⟩ := hp_settles hs r hr
    refine ⟨N, v, ?_, hN⟩
    have h1 := hp_hold_neg hs r hr h0 N
    rw [hN N (le_refl N)] at h1
    omega
  · intro v hv
    rw [hp_settled_step hs hv]
    constructor
    · intro h
      constructor <;> omega
    · intro h
      omega

/-- Witness of C22: the stored sample 0x00580000 and the result -3158. -/
theorem C22_hp_decay_witness :
    (adc_hp_filter ⟨0x00580000, -3158⟩ 0x00580000).1 = asr (-3158 * HPF_A1) 16 ∧
    ∃ N v, (-255 ≤ v ∧ v ≤ -1) ∧
      ∀ n, N ≤ n → (fun z => (adc_hp_filter ⟨0x00580000, z⟩ 0x00580000).1)^[n] (-3158) = v :=
  ⟨(C22_hp_decay 0x00580000 (-3158) (by decide) (by decide)).1,
   (C22_hp_decay 0x00580000 (-3158) (by decide) (by decide)).2.2.2.2.1 (by decide)⟩

/-! ## Settled value of the low-pass filter -/

/-- C23. Low-pass settled value: for every 8-bit sample x, every fixed point y of the
low-pass step with last_sample = x, that is every solution of
y = 2 * LPF_B0 * x + ((y * LPF_A1) >> 16), is reproduced by adc_lp_filter and satisfies
0 <= x * 2^16 - y <= 3387: the settled output never exceeds the input reading and lies less
than 0.052 of one sample count (2^16 units) below it; every value that adc_lp_filter
reproduces is such a solution. -/
theorem C23_lp_settled_value (x y : Int) (hx : isU8 x)
    (hy : y = 2 * LPF_B0 * x + asr (y * LPF_A1) 16) :
    (0 ≤ x * 2 ^ 16 - y ∧ x * 2 ^ 16 - y ≤ 3387) ∧
    1000 * (x * 2 ^ 16 - y) < 52 * 2 ^ 16 ∧
    adc_lp_filter ⟨x, y⟩ x = (y, ⟨x, y⟩) ∧
    (∀ z, (adc_lp_filter ⟨x, z⟩ x).1 = z → z = 2 * LPF_B0 * x + asr (z * LPF_A1) 16) := by
  have hx' := (isU8_iff x).1 hx
  rw [asr_16] at hy
  unfold LPF_B0 LPF_A1 at hy
  have hyi : isI32 y := by rw [isI32_iff]; omega
  have hfix : (adc_lp_filter ⟨x, y⟩ x).1 = y := by
    rw [lp_settled_step hx hyi]; omega
  refine ⟨⟨?_, ?_⟩, ?_, ?_, ?_⟩
  · norm_num; omega
  · norm_num; omega
  · norm_num; omega
  · rw [Prod.ext_iff]
    refine ⟨hfix, ?_⟩
    rw [adc_lp_filter_snd, hfix]
  · intro z hz
    have hzi : isI32 z := by rw [← hz]; exact adc_lp_filter_isI32 _ _
    rw [lp_settled_step hx hzi] at hz
    rw [asr_16]
    unfold LPF_B0 LPF_A1
    omega

/-- Witness of C23: the rest reading 0x58 settles at 5766003, 1165 below 0x00580000. -/
theorem C23_lp_settled_value_witness :
    ((0 : Int) ≤ 0x58 * 2 ^ 16 - 5766003 ∧ (0x58 : Int) * 2 ^ 16 - 5766003 ≤ 3387) ∧
    (1000 : Int) * (0x58 * 2 ^ 16 - 5766003) < 52 * 2 ^ 16 ∧
    adc_lp_filter ⟨0x58, 5766003⟩ 0x58 = (5766003, ⟨0x58, 5766003⟩) ∧
    (∀ z, (adc_lp_filter ⟨0x58, z⟩ 0x58).1 = z →
      z = 2 * LPF_B0 * 0x58 + asr (z * LPF_A1) 16) :=
  C23_lp_settled_value 0x58 5766003 (by decide) (by decide)

/-! ## Tick counter -/

/-- The 500 ms bit seen by the handlers in a pass of a run. -/
theorem gather_events_500ms (c : Copy) (inps : List Inputs) (inp : Inputs) :
    TRUE = READ (gather_events inp (main_run c inps)).1.events EVENT_500MS ↔
      (TRUE = READ inp.TIFR1 0 ∧ (overflows inps + 1) % 400 = 0) := by
  rw [READ_eq_TRUE, gather_events_bits inp _ (main_run_events c inps), main_run_ticks]
  have hlt : overflows inps % 400 < 400 := Nat.mod_lt _ (by decide)
  have hmod : (overflows inps % 400 + 1) % 2 ^ 32 = overflows inps % 400 + 1 :=
    Nat.mod_eq_of_lt (by norm_num; omega)
  have hled : PERIOD_HB_LED = (overflows inps % 400 + 1) % 2 ^ 32 ↔
      (overflows inps + 1) % 400 = 0 := by
    rw [hmod]
    unfold PERIOD_HB_LED
    omega
  rw [hled]
  simp only [EVENT_READ_ADC_Y, EVENT_DECIMATE, EVENT_500MS, EVENT_PUSHBUTTON]
  constructor
  · rintro (⟨h1, _⟩ | ⟨h1, _⟩ | ⟨_, h1, h2⟩ | ⟨h1, _⟩)
    · exact absurd h1 (by decide)
    · exact absurd h1 (by decide)
    · exact ⟨h1, h2⟩
    · exact absurd h1 (by decide)
  · rintro ⟨h1, h2⟩
    exact Or.inr (Or.inr (Or.inl ⟨trivial, h1, h2⟩))

/-- C24. Tick counter invariant: in a run from loop entry with ticks = 0 the counter is the
number of overflows modulo 400, so 0 <= ticks <= 399 at the end of every pass; a pass with
the overflow flag set increments it once and resets it to 0 exactly when the incremented
value is 400, a pass without leaves it; the 500 ms event is seen by the handlers in exactly
the passes whose overflow is a 400th one, which are the passes that reset the counter; and
the value switched on is never 0, so the `case 0` label of the decimation switch is never
taken. -/
theorem C24_tick_counter (c : Copy) (inps : List Inputs) (inp : Inputs) :
    ((main_run c inps).ticks ≤ 399 ∧ (main_run c inps).ticks = overflows inps % 400) ∧
    (TRUE = READ inp.TIFR1 0 →
      (main_loop_body c inp (main_run c inps)).1.ticks
        = (if (main_run c inps).ticks + 1 = 400 then 0 else (main_run c inps).ticks + 1) ∧
      ((main_run c inps).ticks + 1) % 2 ^ 32 = (main_run c inps).ticks + 1 ∧
      ((main_run c inps).ticks + 1) % 2 ^ 32 ≠ 0 ∧
      (((main_run c inps).ticks + 1) % 2 ^ 32 ∈ decimate_labels ↔
        (main_run c inps).ticks + 1 ∈ decimate_ticks)) ∧
    (¬ TRUE = READ inp.TIFR1 0 →
      (main_loop_body c inp (main_run c inps)).1.ticks = (main_run c inps).ticks) ∧
    (TRUE = READ (gather_events inp (main_run c inps)).1.events EVENT_500MS ↔
      (TRUE = READ inp.TIFR1 0 ∧ (overflows inps + 1) % 400 = 0)) ∧
    (TRUE = READ (gather_events inp (main_run c inps)).1.events EVENT_500MS ↔
      (TRUE = READ inp.TIFR1 0 ∧ (main_run c inps).ticks + 1 = 400)) ∧
    (main_loop_body c inp (main_run c inps)).1.ticks ≤ 399 := by
  have ht := main_run_ticks c inps
  have hlt : overflows inps % 400 < 400 := Nat.mod_lt _ (by decide)
  have hle : (main_run c inps).ticks ≤ 399 := by omega
  have hmod : ((main_run c inps).ticks + 1) % 2 ^ 32 = (main_run c inps).ticks + 1 :=
    Nat.mod_eq_of_lt (by norm_num; omega)
  have h500 := gather_events_500ms c inps inp
  have hnext : (main_loop_body c inp (main_run c inps)).1.ticks ≤ 399 := by
    have := main_run_ticks c (inps ++ [inp])
    rw [main_run_snoc] at this
    have hlt2 : overflows (inps ++ [inp]) % 400 < 400 := Nat.mod_lt _ (by decide)
    omega
  refine ⟨⟨hle, ht⟩, ?_, ?_, h500, ?_, hnext⟩
  · intro ho
    refine ⟨?_, hmod, ?_, ?_⟩
    · rw [main_loop_body_ticks, if_pos ho, hmod]
      unfold PERIOD_HB_LED
      split_ifs <;> omega
    · rw [hmod]; omega
    · rw [hmod]
      simp only [decimate_labels, decimate_ticks, List.mem_cons, List.mem_singleton,
        List.not_mem_nil, or_false]
      omega
  · intro ho
    rw [main_loop_body_ticks, if_neg ho]
  · rw [h500]
    constructor
    · rintro ⟨h1, h2⟩
      exact ⟨h1, by omega⟩
    · rintro ⟨h1, h2⟩
      exact ⟨h1, by omega⟩

/-- Witness of C24: the 400th overflow of a run resets the counter. -/
theorem C24_tick_counter_witness :
    (main_loop_body Copy.proj ⟨0x01, 0x10, 0x58⟩
      (main_run Copy.proj (List.replicate 399 ⟨0x01, 0x10, 0x58⟩))).1.ticks =
    (if (main_run Copy.proj (List.replicate 399 ⟨0x01, 0x10, 0x58⟩)).ticks + 1 = 400 then 0
      else (main_run Copy.proj (List.replicate 399 ⟨0x01, 0x10, 0x58⟩)).ticks + 1) :=
  ((C24_tick_counter Copy.proj (List.replicate 399 ⟨0x01, 0x10, 0x58⟩)
    ⟨0x01, 0x10, 0x58⟩).2.1 (by decide)).1

/-! ## Motion events -/

/-- Collecting the events of a pass leaves the two motion bits of the event word as they
were, whatever the state and the inputs. -/
theorem gather_events_motion_bits (inp : Inputs) (st : MainState) :
    (gather_events inp st).1.events.testBit EVENT_FORWARD_MOTION
      = st.events.testBit EVENT_FORWARD_MOTION ∧
    (gather_events inp st).1.events.testBit EVENT_HALT = st.events.testBit EVENT_HALT := by
  simp only [gather_events, poll_timer, poll_pushbutton]
  split_ifs <;>
    simp only [testBit_mod_32, testBit_SET, EVENT_FORWARD_MOTION, EVENT_HALT,
      EVENT_READ_ADC_Y, EVENT_DECIMATE, EVENT_500MS, EVENT_PUSHBUTTON] <;>
    simp

theorem gather_events_portd (inp : Inputs) (st : MainState) :
    (gather_events inp st).2.filter Action.isPortdWrite = [] := by
  simp only [gather_events, poll_timer, poll_pushbutton]
  split_ifs <;> rfl

theorem handle_read_adc_portd (c : Copy) (inp : Inputs) (st : MainState) :
    (handle_read_adc c inp st).1.PORTD = st.PORTD ∧
    (handle_read_adc c inp st).1.events = st.events ∧
    (handle_read_adc c inp st).2.filter Action.isPortdWrite = [] := by
  unfold handle_read_adc
  cases c <;> split_ifs <;> exact ⟨rfl, rfl, rfl⟩

theorem handle_decimate_portd (c : Copy) (st : MainState) :
    (handle_decimate c st).1.PORTD = st.PORTD ∧
    (handle_decimate c st).1.events = st.events ∧
    (handle_decimate c st).2.filter Action.isPortdWrite = [] := by
  unfold handle_decimate
  cases c <;> split_ifs <;> exact ⟨rfl, rfl, rfl⟩

theorem READ_eq_FALSE (x y : Nat) : READ x y = FALSE ↔ x.testBit y = false := by
  rw [READ_eq]
  cases x.testBit y <;> simp [TRUE, FALSE]

theorem handle_forward_motion_idle (st : MainState)
    (h : st.events.testBit EVENT_FORWARD_MOTION = false) :
    handle_forward_motion st = (st, []) := by
  unfold handle_forward_motion
  have hn : ¬ TRUE = READ st.events EVENT_FORWARD_MOTION := by
    rw [READ_eq_TRUE, h]; simp
  rw [if_neg hn]

theorem handle_halt_idle (st : MainState) (h : st.events.testBit EVENT_HALT = false) :
    handle_halt st = (st, []) := by
  unfold handle_halt
  have hn : ¬ TRUE = READ st.events EVENT_HALT := by
    rw [READ_eq_TRUE, h]; simp
  rw [if_neg hn]

/-- A pass that starts without motion bits in the event word runs neither motion handler:
PORTD keeps its value and is not written. -/
theorem main_loop_body_portd (c : Copy) (inp : Inputs) (st : MainState)
    (h4 : st.events.testBit EVENT_FORWARD_MOTION = false)
    (h5 : st.events.testBit EVENT_HALT = false) :
    (main_loop_body c inp st).1.PORTD = st.PORTD ∧
    (main_loop_body c inp st).2.filter Action.isPortdWrite = [] := by
  obtain ⟨g4, g5⟩ := gather_events_motion_bits inp st
  rw [h4] at g4
  rw [h5] at g5
  obtain ⟨_, _, _, _, _, gP, _⟩ := gather_events_frame inp st
  obtain ⟨a1, a2, a3⟩ := handle_read_adc_portd c inp (gather_events inp st).1
  obtain ⟨d1, d2, d3⟩ := handle_decimate_portd c (handle_read_adc c inp (gather_events inp st).1).1
  have e4 : (handle_decimate c (handle_read_adc c inp (gather_events inp st).1).1).1.events.testBit
      EVENT_FORWARD_MOTION = false := by rw [d2, a2]; exact g4
  have e5 : (handle_decimate c (handle_read_adc c inp (gather_events inp st).1).1).1.events.testBit
      EVENT_HALT = false := by rw [d2, a2]; exact g5
  have ef := handle_forward_motion_idle _ e4
  have eh := handle_halt_idle _ e5
  constructor
  · show (handle_halt (handle_forward_motion _).1).1.PORTD = _
    rw [ef, eh, d1, a1, gP]
  · show List.filter _ (_ ++ (_ ++ _ ++ (handle_forward_motion _).2
      ++ (handle_halt (handle_forward_motion _).1).2)) = _
    rw [ef, eh, List.filter_append, List.filter_append, List.filter_append,
      List.filter_append, gather_events_portd, a3, d3]
    rfl

theorem main_run_from_portd (c : Copy) (inps : List Inputs) (st : MainState)
    (h4 : st.events.testBit EVENT_FORWARD_MOTION = false)
    (h5 : st.events.testBit EVENT_HALT = false) :
    (main_run_from c st inps).1.PORTD = st.PORTD ∧
    (main_run_from c st inps).2.filter Action.isPortdWrite = [] := by
  induction inps generalizing st with
  | nil => exact ⟨rfl, rfl⟩
  | cons inp inps ih =>
    obtain ⟨b1, b2⟩ := main_loop_body_portd c inp st h4 h5
    have hz : (main_loop_body c inp st).1.events = 0 := main_loop_body_events c inp st
    obtain ⟨i1, i2⟩ := ih (main_loop_body c inp st).1
      (by rw [hz]; exact Nat.zero_testBit _) (by rw [hz]; exact Nat.zero_testBit _)
    constructor
    · show (main_run_from c (main_loop_body c inp st).1 inps).1.PORTD = _
      rw [i1, b1]
    · show List.filter _ ((main_loop_body c inp st).2
        ++ (main_run_from c (main_loop_body c inp st).1 inps).2) = _
      rw [List.filter_append, b2, i2]
      rfl

/-- C25. Motion events are never produced: for every state and all inputs, collecting the
events of a pass leaves the forward-motion and halt bits of the event word as they were, so
no pass sets them; from every state whose event word holds neither bit, as at loop entry and
after every pass, and for every sequence of inputs, the handlers of every pass read both bits
as FALSE, neither motion handler runs, PORTD is never written and keeps its value; in every
run from loop entry PORTD and its bit 7 stay as the initialisation left them. -/
theorem C25_no_motion_events (c : Copy) (st : MainState) (inp : Inputs)
    (inps : List Inputs) :
    ((gather_events inp st).1.events.testBit EVENT_FORWARD_MOTION
        = st.events.testBit EVENT_FORWARD_MOTION ∧
      (gather_events inp st).1.events.testBit EVENT_HALT = st.events.testBit EVENT_HALT) ∧
    (st.events.testBit EVENT_FORWARD_MOTION = false → st.events.testBit EVENT_HALT = false →
      READ (gather_events inp st).1.events EVENT_FORWARD_MOTION = FALSE ∧
      READ (gather_events inp st).1.events EVENT_HALT = FALSE ∧
      (main_run_from c st inps).1.PORTD = st.PORTD ∧
      (main_run_from c st inps).2.filter Action.isPortdWrite = []) ∧
    (READ (gather_events inp (main_run c inps)).1.events EVENT_FORWARD_MOTION = FALSE ∧
      READ (gather_events inp (main_run c inps)).1.events EVENT_HALT = FALSE ∧
      (main_run c inps).PORTD = main_init.PORTD ∧
      (main_run c inps).PORTD.testBit 7 = false ∧
      (main_trace c inps).filter Action.isPortdWrite = []) := by
  have hg := gather_events_motion_bits inp st
  refine ⟨hg, ?_, ?_⟩
  · intro h4 h5
    obtain ⟨r1, r2⟩ := main_run_from_portd c inps st h4 h5
    refine ⟨?_, ?_, r1, r2⟩
    · rw [READ_eq_FALSE, hg.1, h4]
    · rw [READ_eq_FALSE, hg.2, h5]
  · have hz := main_run_events c inps
    obtain ⟨g4, g5⟩ := gather_events_motion_bits inp (main_run c inps)
    rw [hz, Nat.zero_testBit] at g4 g5
    obtain ⟨r1, r2⟩ := main_run_from_portd c inps main_init (by decide) (by decide)
    rw [main_run_from_init] at r1
    refine ⟨?_, ?_, r1, ?_, r2⟩
    · rw [READ_eq_FALSE, g4]
    · rw [READ_eq_FALSE, g5]
    · rw [r1]; decide

/-- Witness of C25: 400 passes with overflow and the button pressed, in the `studio` copy. -/
theorem C25_no_motion_events_witness :
    (main_run_from Copy.studio main_init (List.replicate 400 ⟨0x01, 0x00, 0xA5⟩)).1.PORTD
      = main_init.PORTD :=
  ((C25_no_motion_events Copy.studio main_init ⟨0x01, 0x00, 0xA5⟩
    (List.replicate 400 ⟨0x01, 0x00, 0xA5⟩)).2.1 (by decide) (by decide)).2.2.1

end Costume
